import Mathlib

/-!
# RNNoise example drivers

A shallow embedding of the two example drivers of the repository,

* `examples/rnnoise_demo.c` (namespace `rnnoise_demo`): raw interleaved 16-bit PCM from
  `stdin` to `stdout`, one denoiser state per channel;
* `examples/rnnoise_libsndfile.cpp` (namespace `rnnoise_libsndfile`): one channel, WAV
  files through libsndfile, with one voice-activity probability dumped per frame.

The denoising library (`rnnoise.h`) is not part of the sources: its functions are the
fields of `Denoiser`, and every call a driver makes on it is recorded, in program order,
in a trace of `Call`s.  The C `float` type is a type parameter `F`; the conversions and
the two scalings the drivers apply to it are the fields of `FloatOps`.
-/

namespace RNNoise

/-- FRAME_SIZE of `rnnoise_demo.c` (line 35): the number of samples of one frame. -/
def FRAME_SIZE : Nat := 480

/-- One frame: the C array `float x[FRAME_SIZE]`. -/
abbrev Frame (F : Type) : Type := Fin FRAME_SIZE → F

/-- The operations on C floats the drivers use. `ofShort` and `toShort` are the implicit
conversions of `x[i] = tmp[..]` and `tmp[..] = x[i]`; `mulFactor` and `divFactor` are
`sample *= RNNOISE_PCM16_MULTIPLY_FACTOR` and `sample /= RNNOISE_PCM16_MULTIPLY_FACTOR`;
`zero` is `0.0f`. -/
structure FloatOps (F : Type) where
  ofShort : Int → F
  toShort : F → Int
  zero : F
  mulFactor : F → F
  divFactor : F → F

/-- The functions of `rnnoise.h` the drivers call. A value of `σ` is a `DenoiseState *`
together with what it points to; `null` is the null pointer, which `rnnoise_create`
returns when it cannot build a state. `rnnoise_create i` is the result of the `i`-th
creation of a run. `rnnoise_process_frame st x` gives the state after the call, the
output frame and the returned voice-activity probability. -/
structure Denoiser (σ F : Type) where
  null : σ
  rnnoise_create : Nat → σ
  rnnoise_set_param : σ → σ
  rnnoise_set_xcorr_kernel_cb : σ → σ
  rnnoise_process_frame : σ → Frame F → σ × Frame F × F

/-- One call on an external collaborator, as recorded in the trace of a run. The index
is the channel whose state the call is made on; `process_frame` carries the probability
the call returned, `vad_write` the value handed to `LazyFileWriter::write`. -/
inductive Call (F : Type) where
  | create (i : Nat)
  | set_param (i : Nat)
  | set_xcorr_kernel_cb (i : Nat)
  | process_frame (i : Nat) (vad : F)
  | destroy (i : Nat)
  | model_free
  | vad_write (v : F)
  deriving DecidableEq, Repr

/-- Whether a call is an `rnnoise_process_frame` on the state of channel `i`. -/
def Call.isProcess {F : Type} (i : Nat) : Call F → Bool
  | Call.process_frame j _ => decide (j = i)
  | _ => false

/-- Whether a call is an `rnnoise_destroy`. -/
def Call.isDestroy {F : Type} : Call F → Bool
  | Call.destroy _ => true
  | _ => false

/-- The probabilities returned by the `rnnoise_process_frame` calls of a trace, in call
order. -/
def processReturns {F : Type} : List (Call F) → List F
  | [] => []
  | Call.process_frame _ v :: cs => v :: processReturns cs
  | _ :: cs => processReturns cs

/-- The values handed to `LazyFileWriter::write` in a trace, in call order. -/
def vadWrites {F : Type} : List (Call F) → List F
  | [] => []
  | Call.vad_write v :: cs => v :: vadWrites cs
  | _ :: cs => vadWrites cs

/-- How a run ends: `exit code` is a return from `main` or a call of `std::exit`;
`undefined` marks a run that evaluates an expression C leaves undefined. -/
inductive Outcome where
  | exit (code : Int)
  | undefined
  deriving DecidableEq, Repr

/-! ## 32-bit `int` and 64-bit `size_t` arithmetic -/

/-- INT_MAX for a 32-bit `int`. -/
def INT_MAX : Int := 2147483647

/-- The value a 32-bit two's complement `int` holds for the mathematical result `z`. -/
def wrapInt (z : Int) : Int := (z + 2147483648) % 4294967296 - 2147483648

/-- Conversion of an `int` to a 64-bit `size_t`. -/
def toSizeT (z : Int) : Nat := (z % 18446744073709551616).toNat

namespace rnnoise_demo

/-! ## `rnnoise_demo.c` -/

/-- Lines 51-52: `channels = atoi(argv[1]); if (channels < 1) channels = 1;`, from the
value `a` that `atoi` returned. -/
def clampChannels (a : Int) : Int := if a < 1 then 1 else a

/-- The number of `short`s of the buffer of line 75,
`tmp = malloc(channels * FRAME_SIZE * sizeof(short))`: the product `channels * FRAME_SIZE`
is an `int`, converted to `size_t` for the multiplication by `sizeof(short) = 2`. -/
def tmpShorts (channels : Int) : Nat :=
  (toSizeT (wrapInt (channels * FRAME_SIZE)) * 2 % 18446744073709551616) / 2

/-- The index expression `i*channels+ci` of lines 90 and 92, in `int` arithmetic. -/
def tmpIndex (channels i ci : Int) : Int := wrapInt (wrapInt (i * channels) + ci)

/-- The count `channels * FRAME_SIZE` handed to `fread` and `fwrite` (lines 86 and 95):
the `int` product, converted to `size_t`. -/
def blockItems (channels : Nat) : Nat := toSizeT (wrapInt ((channels : Int) * FRAME_SIZE))

/-- The read `tmp[idx]` for an `int` index. Outside the buffer C leaves the read
undefined; it gives 0 here. -/
def tmpRead (tmp : List Int) (idx : Int) : Int :=
  if 0 ≤ idx then tmp.getD idx.toNat 0 else 0

/-- The write `tmp[idx] = v` for an `int` index. Outside the buffer C leaves the write
undefined; nothing is written here. -/
def tmpWrite (tmp : List Int) (idx : Int) (v : Int) : List Int :=
  if 0 ≤ idx then tmp.set idx.toNat v else tmp

/-- The variables of `main` that the block loop (lines 85-97) reads and writes: the block
buffer `tmp` (a list as long as the buffer), the states `sts`, the flag `first`; with the
blocks handed to `fwrite` so far (`stdout`) and the trace of library calls. -/
structure LoopState (σ F : Type) where
  tmp : List Int
  sts : Nat → σ
  first : Bool
  stdout : List (List Int)
  calls : List (Call F)

/-- Line 86, `fread(tmp, sizeof(short), n, stdin)`, on the samples still to come: the
buffer after the call, the rest of the stream, and the end-of-file indicator, which is set
when the stream ends before `n` items are delivered. -/
def fread (tmp : List Int) (n : Nat) (stdin : List Int) : List Int × List Int × Bool :=
  (stdin.take n ++ tmp.drop (stdin.take n).length, stdin.drop n, decide (stdin.length < n))

/-- Line 95, `fwrite(tmp, sizeof(short), n, stdout)`: the block written. -/
def fwrite (tmp : List Int) (n : Nat) : List Int := tmp.take n

/-- Line 90: `for (i=0;i<FRAME_SIZE;i++) x[i] = tmp[i*channels+ci];`, the index being
the `int` expression `tmpIndex`. -/
def extractChannel {F : Type} (ops : FloatOps F) (channels ci : Nat) (tmp : List Int) :
    Frame F :=
  fun i => ops.ofShort (tmpRead tmp (tmpIndex (channels : Int) (i.val : Int) (ci : Int)))

/-- Line 92: `for (i=0;i<FRAME_SIZE;i++) tmp[i*channels+ci] = x[i];`, the index being the
`int` expression `tmpIndex`. -/
def storeChannel {F : Type} (ops : FloatOps F) (channels ci : Nat) (x : Frame F)
    (tmp : List Int) : List Int :=
  (List.finRange FRAME_SIZE).foldl
    (fun t i =>
      tmpWrite t (tmpIndex (channels : Int) (i.val : Int) (ci : Int)) (ops.toShort (x i)))
    tmp

/-- Lines 90-92: the body of the channel loop for channel `ci`. -/
def processChannel {σ F : Type} (ops : FloatOps F) (lib : Denoiser σ F) (channels : Nat)
    (st : LoopState σ F) (ci : Nat) : LoopState σ F :=
  let x := extractChannel ops channels ci st.tmp
  let r := lib.rnnoise_process_frame (st.sts ci) x
  { st with
    sts := Function.update st.sts ci r.1
    tmp := storeChannel ops channels ci r.2.1 st.tmp
    calls := st.calls ++ [Call.process_frame ci r.2.2] }

/-- Lines 89-93: `for (ci = 0; ci < channels; ci++) { ... }`. -/
def processBlock {σ F : Type} (ops : FloatOps F) (lib : Denoiser σ F) (channels : Nat)
    (st : LoopState σ F) : LoopState σ F :=
  (List.range channels).foldl (processChannel ops lib channels) st

/-- Lines 95-96: `if (!first) fwrite(...); first = 0;`. -/
def writeBlock {σ F : Type} (channels : Nat) (st : LoopState σ F) : LoopState σ F :=
  { st with
    stdout := if st.first then st.stdout
              else st.stdout ++ [fwrite st.tmp (blockItems channels)]
    first := false }

/-- Lines 85-97: `while (1) { fread; if (feof(stdin)) break; ...; }`, on the samples
`stdin` still to come. The count read on each pass is `blockItems channels`, the `int`
product of lines 86 and 95. A count of 0 would make `fread` deliver nothing without ever
reaching the end of the file, so the loop is defined for a positive count. -/
def blockLoop {σ F : Type} (ops : FloatOps F) (lib : Denoiser σ F) (channels : Nat)
    (hitems : 0 < blockItems channels) (stdin : List Int) (st : LoopState σ F) :
    LoopState σ F :=
  let r := fread st.tmp (blockItems channels) stdin
  if _h : r.2.2 = true then { st with tmp := r.1 }
  else
    blockLoop ops lib channels hitems r.2.1
      (writeBlock channels (processBlock ops lib channels { st with tmp := r.1 }))
termination_by stdin.length
decreasing_by
  have hlen : ¬ stdin.length < blockItems channels := by simpa [r, fread] using _h
  simp only [fread, List.length_drop]
  omega

/-! ### Vocabulary for the statements about the block loop -/

/-- Block `k` of a stream cut into blocks of `channels * FRAME_SIZE` samples. -/
def inputBlock (channels : Nat) (stream : List Int) (k : Nat) : List Int :=
  (stream.drop (k * (channels * FRAME_SIZE))).take (channels * FRAME_SIZE)

/-- Channel `c` of an interleaved block, as the specification lays a block out
(`sample[i*channels + c]`): element `i` is the sample at position `i*channels + c` of the
block, converted to float. -/
def channelFrame {F : Type} (ops : FloatOps F) (channels c : Nat) (blk : List Int) :
    Frame F :=
  fun i => ops.ofShort (blk.getD (i.val * channels + c) 0)

/-- The state of channel `c` after it has processed channel `c` of blocks `0 .. k-1` of
`stream`, in order, starting from state `s`. -/
def channelState {σ F : Type} (ops : FloatOps F) (lib : Denoiser σ F) (channels c : Nat)
    (s : σ) (stream : List Int) : Nat → σ
  | 0 => s
  | k + 1 =>
    (lib.rnnoise_process_frame (channelState ops lib channels c s stream k)
      (channelFrame ops channels c (inputBlock channels stream k))).1

/-- The channel loop run on the block `blk` with the states `sts`, from an empty trace. -/
def blockStep {σ F : Type} (ops : FloatOps F) (lib : Denoiser σ F) (channels : Nat)
    (sts : Nat → σ) (blk : List Int) : LoopState σ F :=
  processBlock ops lib channels ⟨blk, sts, false, [], []⟩

/-- The blocks the channel loop produces for the first `N` blocks of `stream`. -/
def procBlocks {σ F : Type} (ops : FloatOps F) (lib : Denoiser σ F) (channels : Nat) :
    Nat → (Nat → σ) → List Int → List (List Int)
  | 0, _, _ => []
  | N + 1, sts, stream =>
    (blockStep ops lib channels sts (stream.take (channels * FRAME_SIZE))).tmp ::
      procBlocks ops lib channels N
        (blockStep ops lib channels sts (stream.take (channels * FRAME_SIZE))).sts
        (stream.drop (channels * FRAME_SIZE))

/-- The library calls the channel loop makes for the first `N` blocks of `stream`. -/
def procCalls {σ F : Type} (ops : FloatOps F) (lib : Denoiser σ F) (channels : Nat) :
    Nat → (Nat → σ) → List Int → List (Call F)
  | 0, _, _ => []
  | N + 1, sts, stream =>
    (blockStep ops lib channels sts (stream.take (channels * FRAME_SIZE))).calls ++
      procCalls ops lib channels N
        (blockStep ops lib channels sts (stream.take (channels * FRAME_SIZE))).sts
        (stream.drop (channels * FRAME_SIZE))

/-- What `fopen` and `rnnoise_model_from_file` (lines 56-66) make of `argv[3]`. -/
inductive ModelFile where
  | unopenable
  | unparsable
  | loaded
  deriving DecidableEq, Repr

/-- What a run of `main` depends on: the argument count, the value `atoi(argv[1])`, the
fate of the model file (looked at only when `argc >= 4`), whether the two `malloc` calls
succeed, and the samples on `stdin`. -/
structure Env where
  argc : Nat
  channelsArg : Int
  modelFile : ModelFile
  mallocSts : Bool
  mallocTmp : Bool
  stdin : List Int

/-- What a run of `main` leaves behind: how it ended, the blocks written to `stdout`, and
the trace of library calls. -/
structure Run (F : Type) where
  outcome : Outcome
  stdout : List (List Int)
  calls : List (Call F)

/-- Lines 80-83: `for (i = 0; i < channels; i++) { sts[i] = rnnoise_create(model);
rnnoise_set_param(sts[i], ...); }`. The result of `rnnoise_create` is not tested. -/
def createStates {σ F : Type} (lib : Denoiser σ F) (channels : Nat) (st : LoopState σ F) :
    LoopState σ F :=
  (List.range channels).foldl
    (fun s i =>
      { s with
        sts := Function.update s.sts i (lib.rnnoise_set_param (lib.rnnoise_create i))
        calls := s.calls ++ [Call.create i, Call.set_param i] })
    st

/-- Lines 99-104: `rnnoise_destroy` on every state, then `rnnoise_model_free` when a model
was loaded. -/
def teardown {F : Type} (channels : Nat) (model : Bool) : List (Call F) :=
  (List.range channels).map Call.destroy ++ (if model then [Call.model_free] else [])

/-- The function `main` of `rnnoise_demo.c`. The buffers start with arbitrary content
(here `0` and `null`); `channels * FRAME_SIZE` is an `int` product, and a run in which it
exceeds `INT_MAX` is undefined from line 75 on. -/
def main {σ F : Type} (ops : FloatOps F) (lib : Denoiser σ F) (env : Env) : Run F :=
  if env.argc < 3 then ⟨Outcome.exit 1, [], []⟩
  else if 4 ≤ env.argc ∧ env.modelFile ≠ ModelFile.loaded then ⟨Outcome.exit 1, [], []⟩
  else if env.mallocSts = false then ⟨Outcome.exit 1, [], []⟩
  else if h : INT_MAX < clampChannels env.channelsArg * FRAME_SIZE then
    ⟨Outcome.undefined, [], []⟩
  else if env.mallocTmp = false then ⟨Outcome.exit 1, [], []⟩
  else
    let channels := (clampChannels env.channelsArg).toNat
    let st0 : LoopState σ F :=
      ⟨List.replicate (tmpShorts (clampChannels env.channelsArg)) 0, fun _ => lib.null,
        true, [], []⟩
    let st1 := createStates lib channels st0
    let st2 := blockLoop ops lib channels
      (by show 0 < blockItems (clampChannels env.channelsArg).toNat
          have h1 : 1 ≤ clampChannels env.channelsArg := by
            unfold clampChannels; split <;> omega
          simp only [blockItems, wrapInt, toSizeT, FRAME_SIZE, INT_MAX,
            Nat.cast_ofNat] at h ⊢
          omega) env.stdin st1
    ⟨Outcome.exit 0, st2.stdout, st2.calls ++ teardown channels (decide (4 ≤ env.argc))⟩

end rnnoise_demo

namespace rnnoise_libsndfile

/-! ## `rnnoise_libsndfile.cpp` -/

/-- AUDIO_BUFFER_LENGTH (line 26). -/
def AUDIO_BUFFER_LENGTH : Nat := 480

/-- SAMPLERATE (line 28). -/
def SAMPLERATE : Nat := 48000

/-- TSamplesBufferArray (line 34): `std::array<float,AUDIO_BUFFER_LENGTH>`. -/
abbrev TSamplesBufferArray (F : Type) : Type := Fin AUDIO_BUFFER_LENGTH → F

/-- The input file as its `SndfileHandle` presents it: the sample rate and the items that
successive `read` calls deliver. -/
structure SndFile (F : Type) where
  samplerate : Nat
  items : List F

/-- The objects `process_audio_recording` works on: the static `samples_buffer`, what
`rnnoise_denoise_state_ptr` points to, the blocks handed to
`output_audio_file_handle.write` so far, and the trace of calls. -/
structure RecState (σ F : Type) where
  samples_buffer : TSamplesBufferArray F
  st : σ
  output : List (List F)
  calls : List (Call F)

/-- What a run of `main` leaves behind. -/
structure Run (F : Type) where
  outcome : Outcome
  output : List (List F)
  calls : List (Call F)

/-- Lines 39-42: `initialize_rnnoise_library`. The result of `rnnoise_create` is not
tested. `samples_buffer` is a zero-initialised static. -/
def initialize_rnnoise_library {σ F : Type} (ops : FloatOps F) (lib : Denoiser σ F) :
    RecState σ F :=
  { samples_buffer := fun _ => ops.zero
    st := lib.rnnoise_set_xcorr_kernel_cb (lib.rnnoise_create 0)
    output := []
    calls := [Call.create 0, Call.set_xcorr_kernel_cb 0] }

/-- Lines 44-48: `normalize_to_rnnoise_expected_level`. -/
def normalize_to_rnnoise_expected_level {F : Type} (ops : FloatOps F)
    (samples_buffer : TSamplesBufferArray F) : TSamplesBufferArray F :=
  fun i => ops.mulFactor (samples_buffer i)

/-- Lines 50-54: `denormalize_from_rnnoise_expected_level`. -/
def denormalize_from_rnnoise_expected_level {F : Type} (ops : FloatOps F)
    (samples_buffer : TSamplesBufferArray F) : TSamplesBufferArray F :=
  fun i => ops.divFactor (samples_buffer i)

/-- Lines 56-58: `dump_vad_prob` hands the value to `LazyFileWriter::write`. -/
def dump_vad_prob {F : Type} (calls : List (Call F)) (vad_probe_value : F) : List (Call F) :=
  calls ++ [Call.vad_write vad_probe_value]

/-- The call `input_audio_file_handle.read(samples_buffer.data(), n)` of line 90: the
number of items delivered, the buffer after the call, and the items still to come.
libsndfile clears the part of the buffer it does not fill. -/
def sfRead {F : Type} (ops : FloatOps F) (n : Nat) (items : List F) :
    Nat × TSamplesBufferArray F × List F :=
  ((items.take n).length, fun i => ((items.take n)[i.val]?).getD ops.zero, items.drop n)

/-- Lines 91-95, the body of the loop, on the buffer as `read` left it: normalise, call
`rnnoise_process_frame` in place, dump the probability, denormalise, write the buffer to
the output file. -/
def loopBody {σ F : Type} (ops : FloatOps F) (lib : Denoiser σ F)
    (samples_buffer : TSamplesBufferArray F) (st : RecState σ F) : RecState σ F :=
  let p := lib.rnnoise_process_frame st.st
    (normalize_to_rnnoise_expected_level ops samples_buffer)
  let buf := denormalize_from_rnnoise_expected_level ops p.2.1
  { samples_buffer := buf
    st := p.1
    output := st.output ++ [List.ofFn buf]
    calls := dump_vad_prob (st.calls ++ [Call.process_frame 0 p.2.2]) p.2.2 }

/-- Lines 90-96: `while (input_audio_file_handle.read(...) != 0) { ... }`, on the items
still to come. -/
def recordingLoop {σ F : Type} (ops : FloatOps F) (lib : Denoiser σ F) (items : List F)
    (st : RecState σ F) : RecState σ F :=
  let r := sfRead ops AUDIO_BUFFER_LENGTH items
  if _h : r.1 ≠ 0 then recordingLoop ops lib r.2.2 (loopBody ops lib r.2.1 st)
  else { st with samples_buffer := r.2.1 }
termination_by items.length
decreasing_by
  have hcount : (items.take AUDIO_BUFFER_LENGTH).length ≠ 0 := by simpa [r, sfRead] using _h
  have hpos : 0 < AUDIO_BUFFER_LENGTH := by decide
  simp only [sfRead, List.length_drop]
  simp only [List.length_take] at hcount
  omega

/-- Lines 59-98: `process_audio_recording`; `none` is the `std::exit(-1)` of line 75. -/
def process_audio_recording {σ F : Type} (ops : FloatOps F) (lib : Denoiser σ F)
    (input_file : SndFile F) (st : RecState σ F) : Option (RecState σ F) :=
  if input_file.samplerate ≠ SAMPLERATE then none
  else some (recordingLoop ops lib input_file.items st)

/-- Lines 106-156: `main`, from the parsed options on: `help` is `result.count("help")`,
`input_file` the file named by the `input` option. -/
def main {σ F : Type} (ops : FloatOps F) (lib : Denoiser σ F) (help : Bool)
    (input_file : SndFile F) : Run F :=
  if help then ⟨Outcome.exit 0, [], []⟩
  else
    let st0 := initialize_rnnoise_library ops lib
    match process_audio_recording ops lib input_file st0 with
    | none => ⟨Outcome.exit (-1), [], st0.calls⟩
    | some st => ⟨Outcome.exit 0, st.output, st.calls⟩

end rnnoise_libsndfile

/-! ## Test doubles -/

/-- Floats stood in for by rationals: a `short` converts exactly, the conversion back
truncates towards zero, and the factor is 32768. -/
def ratOps : FloatOps ℚ where
  ofShort := fun s => (s : ℚ)
  toShort := fun q => q.num.tdiv q.den
  zero := 0
  mulFactor := fun q => q * 32768
  divFactor := fun q => q / 32768

/-- A denoiser that hands every frame back unchanged, counts the frames it has seen in
its state and reports that count as the probability. A state is `none` when null. -/
def echoLib : Denoiser (Option Nat) ℚ where
  null := none
  rnnoise_create := fun _ => some 0
  rnnoise_set_param := id
  rnnoise_set_xcorr_kernel_cb := id
  rnnoise_process_frame := fun s x => (s.map (· + 1), x, ((s.getD 0 : Nat) : ℚ))

/-- A denoiser of which no state can be created. -/
def failingLib : Denoiser (Option Nat) ℚ :=
  { echoLib with rnnoise_create := fun _ => none }

/-- A two-channel test input of two blocks: zeros on channel 0, ones on channel 1. -/
def oddOnes : List Int := (List.range 1920).map (fun p => ((p % 2 : Nat) : Int))

/-- The variables of `rnnoise_demo.c` at the entry of the block loop of a run with
`channels` channels of `echoLib`: a buffer of `channels * FRAME_SIZE` samples, fresh
states, `first = 1`, nothing written. -/
def echoEntry (channels : Nat) : rnnoise_demo.LoopState (Option Nat) ℚ :=
  ⟨List.replicate (channels * FRAME_SIZE) 0, fun _ => some 0, true, [], []⟩

/-- The run `rnnoise_demo 8947849 10`, fed two blocks of `8947849 * 480` zero samples. -/
def overflowEnv : rnnoise_demo.Env :=
  ⟨3, 8947849, rnnoise_demo.ModelFile.loaded, true, true, List.replicate 8589935040 0⟩

/-! ## Interleaving arithmetic -/

namespace rnnoise_demo

theorem chan_index_mod (channels i c : Nat) (hc : c < channels) :
    (i * channels + c) % channels = c := by
  rw [Nat.add_comm, Nat.add_mul_mod_self_right, Nat.mod_eq_of_lt hc]

theorem chan_index_div (channels i c : Nat) (hc : c < channels) :
    (i * channels + c) / channels = i := by
  have hpos : 0 < channels := by omega
  rw [Nat.add_comm, Nat.add_mul_div_right _ _ hpos, Nat.div_eq_of_lt hc, Nat.zero_add]

theorem chan_index_inj (channels i j c d : Nat) (hc : c < channels) (hd : d < channels)
    (h : i * channels + c = j * channels + d) : i = j ∧ c = d := by
  constructor
  · have h1 := chan_index_div channels i c hc
    have h2 := chan_index_div channels j d hd
    rw [h] at h1
    omega
  · have h1 := chan_index_mod channels i c hc
    have h2 := chan_index_mod channels j d hd
    rw [h] at h1
    omega

theorem chan_index_lt (channels i c : Nat) (hi : i < FRAME_SIZE) (hc : c < channels) :
    i * channels + c < channels * FRAME_SIZE := by
  have h1 : (i + 1) * channels ≤ FRAME_SIZE * channels := Nat.mul_le_mul_right _ hi
  rw [Nat.mul_comm channels FRAME_SIZE]
  have h2 : (i + 1) * channels = i * channels + channels := by ring
  omega

theorem chan_index_split (channels p : Nat) (hpos : 0 < channels)
    (hp : p < channels * FRAME_SIZE) :
    p / channels < FRAME_SIZE ∧ p % channels < channels ∧
      p / channels * channels + p % channels = p := by
  refine ⟨?_, Nat.mod_lt _ hpos, ?_⟩
  · exact Nat.div_lt_of_lt_mul hp
  · rw [Nat.mul_comm]
    exact Nat.div_add_mod p channels

/-! ## The store loop -/

theorem foldl_set_length {ι : Type} (key : ι → Nat) (val : ι → Int) (l : List ι)
    (t : List Int) :
    (l.foldl (fun t i => t.set (key i) (val i)) t).length = t.length := by
  induction l generalizing t with
  | nil => rfl
  | cons a l ih => simp [List.foldl_cons, ih]

theorem foldl_set_getD_of_not_mem {ι : Type} (key : ι → Nat) (val : ι → Int) (l : List ι)
    (t : List Int) (p : Nat) (d : Int) (h : ∀ i ∈ l, key i ≠ p) :
    (l.foldl (fun t i => t.set (key i) (val i)) t).getD p d = t.getD p d := by
  induction l generalizing t with
  | nil => rfl
  | cons a l ih =>
    rw [List.foldl_cons, ih _ (fun i hi => h i (List.mem_cons_of_mem _ hi))]
    have ha : key a ≠ p := h a (List.mem_cons_self _ _)
    simp [List.getD_eq_getElem?_getD, List.getElem?_set, ha]

theorem foldl_set_getD_of_mem {ι : Type} (key : ι → Nat) (val : ι → Int) (l : List ι)
    (t : List Int) (d : Int) (hnd : l.Nodup)
    (hinj : ∀ i ∈ l, ∀ j ∈ l, key i = key j → i = j) (i : ι) (hi : i ∈ l)
    (hb : key i < t.length) :
    (l.foldl (fun t i => t.set (key i) (val i)) t).getD (key i) d = val i := by
  induction l generalizing t with
  | nil => cases hi
  | cons a l ih =>
    rw [List.foldl_cons]
    rw [List.nodup_cons] at hnd
    rcases List.mem_cons.mp hi with hia | hil
    · subst hia
      rw [foldl_set_getD_of_not_mem]
      · simp [List.getD_eq_getElem?_getD, List.getElem?_set, hb]
      · intro j hj hkey
        have := hinj j (List.mem_cons_of_mem _ hj) i (List.mem_cons_self _ _) hkey
        exact hnd.1 (this ▸ hj)
    · apply ih _ hnd.2 (fun x hx y hy => hinj x (List.mem_cons_of_mem _ hx) y
        (List.mem_cons_of_mem _ hy)) hil
      simpa using hb

/-! ## When the block size fits an `int` -/

theorem wrapInt_of_range (z : Int) (h0 : 0 ≤ z) (h1 : z ≤ 2147483647) : wrapInt z = z := by
  simp only [wrapInt]; omega

theorem toSizeT_ofNat_of_fit (n : Nat) (h : (n : Int) ≤ 2147483647) :
    toSizeT (n : Int) = n := by
  simp only [toSizeT]; omega

theorem blockItems_unfold (channels : Nat) :
    blockItems channels = toSizeT (wrapInt (((channels * 480 : Nat)) : Int)) := by
  unfold blockItems
  rw [Nat.cast_mul]
  rfl

theorem blockItems_of_fit (channels : Nat) (hfit : (channels : Int) * FRAME_SIZE ≤ INT_MAX) :
    blockItems channels = channels * FRAME_SIZE := by
  have h : ((channels * 480 : Nat) : Int) ≤ 2147483647 := by
    rw [Nat.cast_mul]; exact hfit
  rw [blockItems_unfold, wrapInt_of_range _ (Int.ofNat_nonneg _) h, toSizeT_ofNat_of_fit _ h]
  rfl

theorem tmpIndex_of_fit (channels : Nat) (hfit : (channels : Int) * FRAME_SIZE ≤ INT_MAX)
    (i ci : Nat) (hi : i < FRAME_SIZE) (hci : ci < channels) :
    tmpIndex (channels : Int) (i : Int) (ci : Int) = ((i * channels + ci : Nat) : Int) := by
  have h1 : i * channels + ci < channels * FRAME_SIZE := chan_index_lt channels i ci hi hci
  have h2 : ((i * channels + ci : Nat) : Int) < ((channels * 480 : Nat) : Int) :=
    Int.ofNat_lt.mpr h1
  have h3 : ((channels * 480 : Nat) : Int) ≤ 2147483647 := by
    rw [Nat.cast_mul]; exact hfit
  have h4 : ((i * channels : Nat) : Int) ≤ ((i * channels + ci : Nat) : Int) :=
    Int.ofNat_le.mpr (Nat.le_add_right _ _)
  have hw2 : wrapInt ((i : Int) * (channels : Int)) = ((i * channels : Nat) : Int) := by
    rw [← Nat.cast_mul]
    exact wrapInt_of_range _ (Int.ofNat_nonneg _) (by omega)
  have hw3 : wrapInt (((i * channels : Nat) : Int) + (ci : Int))
      = ((i * channels + ci : Nat) : Int) := by
    rw [← Nat.cast_add]
    exact wrapInt_of_range _ (Int.ofNat_nonneg _) (by omega)
  unfold tmpIndex
  rw [hw2, hw3]

theorem tmpRead_ofNat (tmp : List Int) (n : Nat) : tmpRead tmp (n : Int) = tmp.getD n 0 := by
  unfold tmpRead
  rw [if_pos (Int.ofNat_nonneg n), Int.toNat_ofNat]

theorem tmpWrite_ofNat (tmp : List Int) (n : Nat) (v : Int) :
    tmpWrite tmp (n : Int) v = tmp.set n v := by
  unfold tmpWrite
  rw [if_pos (Int.ofNat_nonneg n), Int.toNat_ofNat]

theorem extractChannel_of_fit {F : Type} (ops : FloatOps F) (channels ci : Nat)
    (tmp : List Int) (hfit : (channels : Int) * FRAME_SIZE ≤ INT_MAX) (hci : ci < channels) :
    extractChannel ops channels ci tmp = channelFrame ops channels ci tmp := by
  funext i
  unfold extractChannel channelFrame
  rw [tmpIndex_of_fit channels hfit i.val ci i.isLt hci, tmpRead_ofNat]

theorem storeChannel_of_fit {F : Type} (ops : FloatOps F) (channels ci : Nat) (x : Frame F)
    (tmp : List Int) (hfit : (channels : Int) * FRAME_SIZE ≤ INT_MAX) (hci : ci < channels) :
    storeChannel ops channels ci x tmp
      = (List.finRange FRAME_SIZE).foldl
          (fun t i => t.set (i.val * channels + ci) (ops.toShort (x i))) tmp := by
  have hf : (fun (t : List Int) (i : Fin FRAME_SIZE) =>
        tmpWrite t (tmpIndex (channels : Int) (i.val : Int) (ci : Int)) (ops.toShort (x i)))
      = (fun t i => t.set (i.val * channels + ci) (ops.toShort (x i))) := by
    funext t i
    rw [tmpIndex_of_fit channels hfit i.val ci i.isLt hci, tmpWrite_ofNat]
  unfold storeChannel
  rw [hf]

theorem storeChannel_length {F : Type} (ops : FloatOps F) (channels ci : Nat) (x : Frame F)
    (tmp : List Int) (hfit : (channels : Int) * FRAME_SIZE ≤ INT_MAX) (hci : ci < channels) :
    (storeChannel ops channels ci x tmp).length = tmp.length := by
  rw [storeChannel_of_fit ops channels ci x tmp hfit hci]
  exact foldl_set_length (fun i : Fin FRAME_SIZE => i.val * channels + ci)
    (fun i => ops.toShort (x i)) _ tmp

theorem storeChannel_getD_same {F : Type} (ops : FloatOps F) (channels ci : Nat)
    (x : Frame F) (tmp : List Int) (hfit : (channels : Int) * FRAME_SIZE ≤ INT_MAX)
    (hci : ci < channels) (i : Fin FRAME_SIZE)
    (hb : i.val * channels + ci < tmp.length) :
    (storeChannel ops channels ci x tmp).getD (i.val * channels + ci) 0 = ops.toShort (x i) := by
  rw [storeChannel_of_fit ops channels ci x tmp hfit hci]
  apply foldl_set_getD_of_mem (fun i : Fin FRAME_SIZE => i.val * channels + ci)
    (fun i => ops.toShort (x i)) _ tmp 0 (List.nodup_finRange _) _ i (List.mem_finRange i) hb
  intro a _ b _ hab
  exact Fin.ext (chan_index_inj channels a.val b.val ci ci hci hci hab).1

theorem storeChannel_getD_other {F : Type} (ops : FloatOps F) (channels ci : Nat)
    (x : Frame F) (tmp : List Int) (hfit : (channels : Int) * FRAME_SIZE ≤ INT_MAX)
    (hci : ci < channels) (p : Nat)
    (hp : ∀ i : Fin FRAME_SIZE, i.val * channels + ci ≠ p) :
    (storeChannel ops channels ci x tmp).getD p 0 = tmp.getD p 0 := by
  rw [storeChannel_of_fit ops channels ci x tmp hfit hci]
  exact foldl_set_getD_of_not_mem (fun i : Fin FRAME_SIZE => i.val * channels + ci)
    (fun i => ops.toShort (x i)) _ tmp p 0 (fun i _ => hp i)

end rnnoise_demo

namespace rnnoise_demo

/-! ## The channel loop -/

theorem processChannel_tmp {σ F : Type} (ops : FloatOps F) (lib : Denoiser σ F) (channels : Nat)
    (st : LoopState σ F) (ci : Nat) :
    (processChannel ops lib channels st ci).tmp
      = storeChannel ops channels ci
          (lib.rnnoise_process_frame (st.sts ci) (extractChannel ops channels ci st.tmp)).2.1
          st.tmp := by
  simp only [processChannel]

theorem processChannel_sts {σ F : Type} (ops : FloatOps F) (lib : Denoiser σ F) (channels : Nat)
    (st : LoopState σ F) (ci : Nat) :
    (processChannel ops lib channels st ci).sts
      = Function.update st.sts ci
          (lib.rnnoise_process_frame (st.sts ci) (extractChannel ops channels ci st.tmp)).1 := by
  simp only [processChannel]

theorem processChannel_first {σ F : Type} (ops : FloatOps F) (lib : Denoiser σ F)
    (channels : Nat) (st : LoopState σ F) (ci : Nat) :
    (processChannel ops lib channels st ci).first = st.first := by
  rw [processChannel]

theorem processChannel_stdout {σ F : Type} (ops : FloatOps F) (lib : Denoiser σ F)
    (channels : Nat) (st : LoopState σ F) (ci : Nat) :
    (processChannel ops lib channels st ci).stdout = st.stdout := by
  rw [processChannel]

theorem processChannel_calls {σ F : Type} (ops : FloatOps F) (lib : Denoiser σ F)
    (channels : Nat) (st : LoopState σ F) (ci : Nat) :
    (processChannel ops lib channels st ci).calls
      = st.calls ++ [Call.process_frame ci
          (lib.rnnoise_process_frame (st.sts ci)
            (extractChannel ops channels ci st.tmp)).2.2] := by
  simp only [processChannel]

theorem processFold_rel {σ F : Type} (ops : FloatOps F) (lib : Denoiser σ F) (channels : Nat)
    (l : List Nat) (st st0 : LoopState σ F) (pre : List (Call F))
    (h1 : st.tmp = st0.tmp) (h2 : st.sts = st0.sts) (h3 : st.calls = pre ++ st0.calls) :
    (l.foldl (processChannel ops lib channels) st).tmp
        = (l.foldl (processChannel ops lib channels) st0).tmp ∧
      (l.foldl (processChannel ops lib channels) st).sts
        = (l.foldl (processChannel ops lib channels) st0).sts ∧
      (l.foldl (processChannel ops lib channels) st).first = st.first ∧
      (l.foldl (processChannel ops lib channels) st).stdout = st.stdout ∧
      (l.foldl (processChannel ops lib channels) st).calls
        = pre ++ (l.foldl (processChannel ops lib channels) st0).calls := by
  induction l generalizing st st0 with
  | nil => exact ⟨h1, h2, rfl, rfl, h3⟩
  | cons a l ih =>
    rw [List.foldl_cons, List.foldl_cons]
    obtain ⟨i1, i2, i3, i4, i5⟩ :=
      ih (processChannel ops lib channels st a) (processChannel ops lib channels st0 a)
        (by rw [processChannel_tmp, processChannel_tmp, h1, h2])
        (by rw [processChannel_sts, processChannel_sts, h1, h2])
        (by rw [processChannel_calls, processChannel_calls, h1, h2, h3, List.append_assoc])
    exact ⟨i1, i2, i3.trans (processChannel_first ops lib channels st a),
      i4.trans (processChannel_stdout ops lib channels st a), i5⟩

theorem processBlock_eq {σ F : Type} (ops : FloatOps F) (lib : Denoiser σ F) (channels : Nat)
    (st : LoopState σ F) :
    processBlock ops lib channels st =
      { tmp := (blockStep ops lib channels st.sts st.tmp).tmp
        sts := (blockStep ops lib channels st.sts st.tmp).sts
        first := st.first
        stdout := st.stdout
        calls := st.calls ++ (blockStep ops lib channels st.sts st.tmp).calls } := by
  have h := processFold_rel ops lib channels (List.range channels) st
    ⟨st.tmp, st.sts, false, [], []⟩ st.calls rfl rfl (by simp)
  obtain ⟨h1, h2, h3, h4, h5⟩ := h
  unfold blockStep processBlock
  cases hst : List.foldl (processChannel ops lib channels) st (List.range channels)
  rw [hst] at h1 h2 h3 h4 h5
  simp only at h1 h2 h3 h4 h5
  simp [h1, h2, h3, h4, h5]

theorem processFold_range {σ F : Type} (ops : FloatOps F) (lib : Denoiser σ F)
    (channels : Nat) (hfit : (channels : Int) * FRAME_SIZE ≤ INT_MAX) (st : LoopState σ F)
    (hlen : st.tmp.length = channels * FRAME_SIZE) (m : Nat) (hm : m ≤ channels) :
    ((List.range m).foldl (processChannel ops lib channels) st).tmp.length = st.tmp.length ∧
    (∀ c, c < m →
      ((List.range m).foldl (processChannel ops lib channels) st).sts c
        = (lib.rnnoise_process_frame (st.sts c) (channelFrame ops channels c st.tmp)).1 ∧
      ∀ i : Fin FRAME_SIZE,
        ((List.range m).foldl (processChannel ops lib channels) st).tmp.getD
            (i.val * channels + c) 0
          = ops.toShort ((lib.rnnoise_process_frame (st.sts c)
              (channelFrame ops channels c st.tmp)).2.1 i)) ∧
    (∀ c, m ≤ c →
      ((List.range m).foldl (processChannel ops lib channels) st).sts c = st.sts c) ∧
    (∀ c, m ≤ c → c < channels → ∀ i : Fin FRAME_SIZE,
      ((List.range m).foldl (processChannel ops lib channels) st).tmp.getD
          (i.val * channels + c) 0 = st.tmp.getD (i.val * channels + c) 0) ∧
    ((List.range m).foldl (processChannel ops lib channels) st).calls
      = st.calls ++ (List.range m).map (fun c => Call.process_frame c
          (lib.rnnoise_process_frame (st.sts c) (channelFrame ops channels c st.tmp)).2.2) := by
  induction m with
  | zero => simp
  | succ m ih =>
    obtain ⟨hl, hlow, hsts, htmp, hcalls⟩ := ih (by omega)
    rw [List.range_succ, List.foldl_append, List.foldl_cons, List.foldl_nil]
    generalize hr : (List.range m).foldl (processChannel ops lib channels) st = r at *
    have hmc : m < channels := by omega
    have hx : extractChannel ops channels m r.tmp = channelFrame ops channels m st.tmp := by
      rw [extractChannel_of_fit ops channels m r.tmp hfit hmc]
      funext i
      unfold channelFrame
      rw [htmp m (le_refl _) hmc i]
    have hs : r.sts m = st.sts m := hsts m (le_refl _)
    refine ⟨?_, ?_, ?_, ?_, ?_⟩
    · rw [processChannel_tmp, storeChannel_length ops channels m _ _ hfit hmc]
      exact hl
    · intro c hc
      by_cases hcm : c = m
      · subst hcm
        constructor
        · rw [processChannel_sts, hx, hs]
          exact Function.update_same _ _ _
        · intro i
          rw [processChannel_tmp, hx, hs]
          apply storeChannel_getD_same ops channels c _ r.tmp hfit hmc i
          rw [hl, hlen]
          exact chan_index_lt channels i.val c i.isLt hmc
      · have hc2 : c < m := by omega
        constructor
        · rw [processChannel_sts, Function.update_noteq hcm]
          exact (hlow c hc2).1
        · intro i
          rw [processChannel_tmp, storeChannel_getD_other ops channels m _ _ hfit hmc]
          · exact (hlow c hc2).2 i
          · intro j hj
            have := chan_index_inj channels j.val i.val m c hmc (by omega) hj
            omega
    · intro c hc
      have hcm : c ≠ m := by omega
      rw [processChannel_sts, Function.update_noteq hcm]
      exact hsts c (by omega)
    · intro c hc hcc i
      rw [processChannel_tmp, storeChannel_getD_other ops channels m _ _ hfit hmc]
      · exact htmp c (by omega) hcc i
      · intro j hj
        have := chan_index_inj channels j.val i.val m c hmc hcc hj
        omega
    · rw [processChannel_calls, hcalls, hx, hs]
      simp only [List.map_append, List.map_cons, List.map_nil, List.append_assoc]

end rnnoise_demo

namespace rnnoise_demo

theorem blockStep_spec {σ F : Type} (ops : FloatOps F) (lib : Denoiser σ F) (channels : Nat)
    (hfit : (channels : Int) * FRAME_SIZE ≤ INT_MAX)
    (sts : Nat → σ) (blk : List Int) (hlen : blk.length = channels * FRAME_SIZE) :
    (blockStep ops lib channels sts blk).tmp.length = channels * FRAME_SIZE ∧
    (∀ c, c < channels →
      (blockStep ops lib channels sts blk).sts c
        = (lib.rnnoise_process_frame (sts c) (channelFrame ops channels c blk)).1 ∧
      ∀ i : Fin FRAME_SIZE,
        (blockStep ops lib channels sts blk).tmp.getD (i.val * channels + c) 0
          = ops.toShort ((lib.rnnoise_process_frame (sts c)
              (channelFrame ops channels c blk)).2.1 i)) ∧
    (∀ c, channels ≤ c → (blockStep ops lib channels sts blk).sts c = sts c) ∧
    (blockStep ops lib channels sts blk).calls
      = (List.range channels).map (fun c => Call.process_frame c
          (lib.rnnoise_process_frame (sts c) (channelFrame ops channels c blk)).2.2) := by
  have h := processFold_range ops lib channels hfit ⟨blk, sts, false, [], []⟩ hlen channels
    (le_refl _)
  obtain ⟨h1, h2, h3, _, h5⟩ := h
  refine ⟨?_, h2, h3, ?_⟩
  · exact h1.trans hlen
  · simpa using h5

/-! ## The block loop -/

theorem blockLoop_eof {σ F : Type} (ops : FloatOps F) (lib : Denoiser σ F) (channels : Nat)
    (hitems : 0 < blockItems channels) (stdin : List Int) (st : LoopState σ F)
    (h : stdin.length < blockItems channels) :
    blockLoop ops lib channels hitems stdin st
      = { st with tmp := (fread st.tmp (blockItems channels) stdin).1 } := by
  rw [blockLoop]
  simp [fread, h]

theorem blockLoop_step {σ F : Type} (ops : FloatOps F) (lib : Denoiser σ F) (channels : Nat)
    (hitems : 0 < blockItems channels) (stdin : List Int) (st : LoopState σ F)
    (h : blockItems channels ≤ stdin.length) :
    blockLoop ops lib channels hitems stdin st
      = blockLoop ops lib channels hitems (stdin.drop (blockItems channels))
          (writeBlock channels (processBlock ops lib channels
            { st with tmp := (fread st.tmp (blockItems channels) stdin).1 })) := by
  conv_lhs => rw [blockLoop]
  have h2 : ¬ stdin.length < blockItems channels := by omega
  simp [fread, h2]

theorem fread_full (tmp stdin : List Int) (n : Nat) (htmp : tmp.length = n)
    (h : n ≤ stdin.length) : (fread tmp n stdin).1 = stdin.take n := by
  simp only [fread]
  have h1 : (stdin.take n).length = n := by simp [List.length_take, h]
  rw [h1, List.drop_of_length_le (by omega)]
  simp

theorem blockLoop_eq {σ F : Type} (ops : FloatOps F) (lib : Denoiser σ F) (channels : Nat)
    (hfit : (channels : Int) * FRAME_SIZE ≤ INT_MAX) (hitems : 0 < blockItems channels)
    (N : Nat) :
    ∀ (stream : List Int) (st : LoopState σ F) (t : Nat),
      stream.length = N * (channels * FRAME_SIZE) + t → t < channels * FRAME_SIZE →
      st.tmp.length = channels * FRAME_SIZE →
      (blockLoop ops lib channels hitems stream st).stdout
          = st.stdout ++ (if st.first then (procBlocks ops lib channels N st.sts stream).tail
              else procBlocks ops lib channels N st.sts stream) ∧
        (blockLoop ops lib channels hitems stream st).calls
          = st.calls ++ procCalls ops lib channels N st.sts stream ∧
        (blockLoop ops lib channels hitems stream st).first = (st.first && decide (N = 0)) := by
  have hB : blockItems channels = channels * FRAME_SIZE := blockItems_of_fit channels hfit
  induction N with
  | zero =>
    intro stream st t hlen ht _
    rw [blockLoop_eof ops lib channels hitems stream st (by omega)]
    simp [procBlocks, procCalls]
  | succ N ih =>
    intro stream st t hlen ht htmp
    have hge : channels * FRAME_SIZE ≤ stream.length := by
      rw [hlen, Nat.succ_mul]; omega
    rw [blockLoop_step ops lib channels hitems stream st (by omega), hB,
      fread_full _ _ _ htmp hge, processBlock_eq]
    have hblk : (stream.take (channels * FRAME_SIZE)).length = channels * FRAME_SIZE := by
      simp [List.length_take, hge]
    have hspec := blockStep_spec ops lib channels hfit st.sts _ hblk
    have hdrop : (stream.drop (channels * FRAME_SIZE)).length
        = N * (channels * FRAME_SIZE) + t := by
      rw [List.length_drop, hlen, Nat.succ_mul]; omega
    have hfw : fwrite (blockStep ops lib channels st.sts
        (stream.take (channels * FRAME_SIZE))).tmp (channels * FRAME_SIZE)
        = (blockStep ops lib channels st.sts (stream.take (channels * FRAME_SIZE))).tmp := by
      unfold fwrite
      exact List.take_of_length_le (by rw [hspec.1])
    obtain ⟨h1, h2, h3⟩ := ih (stream.drop (channels * FRAME_SIZE))
      (writeBlock channels
        ⟨(blockStep ops lib channels st.sts (stream.take (channels * FRAME_SIZE))).tmp,
          (blockStep ops lib channels st.sts (stream.take (channels * FRAME_SIZE))).sts,
          st.first, st.stdout,
          st.calls ++
            (blockStep ops lib channels st.sts (stream.take (channels * FRAME_SIZE))).calls⟩)
      t hdrop ht (by simpa [writeBlock] using hspec.1)
    refine ⟨h1.trans ?_, h2.trans ?_, h3.trans ?_⟩
    · cases hf : st.first <;> simp [writeBlock, procBlocks, hf, hfw, hB]
    · simp [writeBlock, procCalls]
    · simp [writeBlock]

end rnnoise_demo

namespace rnnoise_demo

/-! ## Blocks, channel states and the produced blocks -/

theorem inputBlock_zero (channels : Nat) (stream : List Int) :
    inputBlock channels stream 0 = stream.take (channels * FRAME_SIZE) := by
  simp [inputBlock]

theorem inputBlock_drop (channels : Nat) (stream : List Int) (k : Nat) :
    inputBlock channels (stream.drop (channels * FRAME_SIZE)) k
      = inputBlock channels stream (k + 1) := by
  simp only [inputBlock, List.drop_drop]
  congr 2
  ring

theorem channelState_shift {σ F : Type} (ops : FloatOps F) (lib : Denoiser σ F)
    (channels c : Nat) (s : σ) (stream : List Int) (k : Nat) :
    channelState ops lib channels c s stream (k + 1)
      = channelState ops lib channels c
          (lib.rnnoise_process_frame s
            (channelFrame ops channels c (stream.take (channels * FRAME_SIZE)))).1
          (stream.drop (channels * FRAME_SIZE)) k := by
  induction k with
  | zero => simp [channelState, inputBlock_zero]
  | succ k ih =>
    rw [channelState, ih, ← inputBlock_drop]
    rfl

theorem procBlocks_length {σ F : Type} (ops : FloatOps F) (lib : Denoiser σ F)
    (channels N : Nat) (sts : Nat → σ) (stream : List Int) :
    (procBlocks ops lib channels N sts stream).length = N := by
  induction N generalizing sts stream with
  | zero => rfl
  | succ N ih => simp [procBlocks, ih]

theorem procBlocks_block_length {σ F : Type} (ops : FloatOps F) (lib : Denoiser σ F)
    (channels N : Nat)
    (hfit : (channels : Int) * FRAME_SIZE ≤ INT_MAX) (sts : Nat → σ) (stream : List Int)
    (hlen : N * (channels * FRAME_SIZE) ≤ stream.length) :
    ∀ b ∈ procBlocks ops lib channels N sts stream, b.length = channels * FRAME_SIZE := by
  induction N generalizing sts stream with
  | zero => intro b hb; simp [procBlocks] at hb
  | succ N ih =>
    intro b hb
    rw [Nat.succ_mul] at hlen
    have hblk : (stream.take (channels * FRAME_SIZE)).length = channels * FRAME_SIZE := by
      simp only [List.length_take]; omega
    simp only [procBlocks, List.mem_cons] at hb
    rcases hb with hb | hb
    · rw [hb]; exact (blockStep_spec ops lib channels hfit sts _ hblk).1
    · refine ih _ _ ?_ b hb
      rw [List.length_drop]; omega

theorem procBlocks_getD {σ F : Type} (ops : FloatOps F) (lib : Denoiser σ F)
    (channels N : Nat)
    (hfit : (channels : Int) * FRAME_SIZE ≤ INT_MAX) (sts : Nat → σ) (stream : List Int)
    (hlen : N * (channels * FRAME_SIZE) ≤ stream.length) (k : Nat) (hk : k < N) (c : Nat)
    (hc : c < channels) (i : Fin FRAME_SIZE) :
    ((procBlocks ops lib channels N sts stream).getD k []).getD (i.val * channels + c) 0
      = ops.toShort ((lib.rnnoise_process_frame
          (channelState ops lib channels c (sts c) stream k)
          (channelFrame ops channels c (inputBlock channels stream k))).2.1 i) := by
  induction N generalizing sts stream k with
  | zero => omega
  | succ N ih =>
    rw [Nat.succ_mul] at hlen
    have hblk : (stream.take (channels * FRAME_SIZE)).length = channels * FRAME_SIZE := by
      simp only [List.length_take]; omega
    have hspec := blockStep_spec ops lib channels hfit sts _ hblk
    cases k with
    | zero =>
      simp only [procBlocks, List.getD_cons_zero, channelState, inputBlock_zero]
      exact (hspec.2.1 c hc).2 i
    | succ k =>
      simp only [procBlocks, List.getD_cons_succ]
      rw [ih _ _ (by rw [List.length_drop]; omega) k (by omega), (hspec.2.1 c hc).1,
        inputBlock_drop, ← channelState_shift]

theorem procBlocks_take {σ F : Type} (ops : FloatOps F) (lib : Denoiser σ F)
    (channels N : Nat) (sts : Nat → σ) (stream : List Int) :
    procBlocks ops lib channels N sts (stream.take (N * (channels * FRAME_SIZE)))
      = procBlocks ops lib channels N sts stream := by
  induction N generalizing sts stream with
  | zero => rfl
  | succ N ih =>
    have h1 : (stream.take ((N + 1) * (channels * FRAME_SIZE))).take (channels * FRAME_SIZE)
        = stream.take (channels * FRAME_SIZE) := by
      rw [List.take_take, Nat.succ_mul]
      congr 1
      omega
    have h2 : (stream.take ((N + 1) * (channels * FRAME_SIZE))).drop (channels * FRAME_SIZE)
        = (stream.drop (channels * FRAME_SIZE)).take (N * (channels * FRAME_SIZE)) := by
      rw [List.drop_take, Nat.succ_mul]
      congr 1
      omega
    simp only [procBlocks, h1, h2, ih]

theorem procCalls_take {σ F : Type} (ops : FloatOps F) (lib : Denoiser σ F)
    (channels N : Nat) (sts : Nat → σ) (stream : List Int) :
    procCalls ops lib channels N sts (stream.take (N * (channels * FRAME_SIZE)))
      = procCalls ops lib channels N sts stream := by
  induction N generalizing sts stream with
  | zero => rfl
  | succ N ih =>
    have h1 : (stream.take ((N + 1) * (channels * FRAME_SIZE))).take (channels * FRAME_SIZE)
        = stream.take (channels * FRAME_SIZE) := by
      rw [List.take_take, Nat.succ_mul]
      congr 1
      omega
    have h2 : (stream.take ((N + 1) * (channels * FRAME_SIZE))).drop (channels * FRAME_SIZE)
        = (stream.drop (channels * FRAME_SIZE)).take (N * (channels * FRAME_SIZE)) := by
      rw [List.drop_take, Nat.succ_mul]
      congr 1
      omega
    simp only [procCalls, h1, h2, ih]

theorem countP_isProcess_range {F : Type} (channels c : Nat) (hc : c < channels)
    (v : Nat → F) :
    ((List.range channels).map (fun j => Call.process_frame j (v j))).countP
      (Call.isProcess c) = 1 := by
  induction channels with
  | zero => omega
  | succ m ih =>
    rw [List.range_succ, List.map_append, List.countP_append]
    by_cases hcm : c = m
    · subst hcm
      have h0 : ((List.range c).map (fun j => Call.process_frame j (v j))).countP
          (Call.isProcess c) = 0 := by
        rw [List.countP_eq_zero]
        intro a ha
        simp only [List.mem_map, List.mem_range] at ha
        obtain ⟨j, hj, rfl⟩ := ha
        simp only [Call.isProcess, decide_eq_true_eq]
        omega
      rw [h0]
      simp [Call.isProcess]
    · rw [ih (by omega)]
      simp [Call.isProcess]
      omega

theorem procCalls_count {σ F : Type} (ops : FloatOps F) (lib : Denoiser σ F)
    (channels N : Nat)
    (hfit : (channels : Int) * FRAME_SIZE ≤ INT_MAX) (sts : Nat → σ) (stream : List Int)
    (hlen : N * (channels * FRAME_SIZE) ≤ stream.length) (c : Nat) (hc : c < channels) :
    (procCalls ops lib channels N sts stream).countP (Call.isProcess c) = N := by
  induction N generalizing sts stream with
  | zero => rfl
  | succ N ih =>
    rw [Nat.succ_mul] at hlen
    have hblk : (stream.take (channels * FRAME_SIZE)).length = channels * FRAME_SIZE := by
      simp only [List.length_take]; omega
    have hspec := blockStep_spec ops lib channels hfit sts _ hblk
    rw [procCalls, List.countP_append, ih _ _ (by rw [List.length_drop]; omega), hspec.2.2.2,
      countP_isProcess_range channels c hc]
    omega

end rnnoise_demo

namespace rnnoise_demo

/-! ## Lists of blocks -/

theorem flatten_length_uniform (L : List (List Int)) (n : Nat)
    (h : ∀ b ∈ L, b.length = n) : L.flatten.length = L.length * n := by
  induction L with
  | nil => simp
  | cons b L ih =>
    rw [List.flatten_cons, List.length_append, ih (fun x hx => h x (List.mem_cons_of_mem _ hx)),
      h b (List.mem_cons_self _ _), List.length_cons, Nat.succ_mul]
    omega

theorem flatten_getD_uniform (L : List (List Int)) (n : Nat) (h : ∀ b ∈ L, b.length = n)
    (k q : Nat) (hq : q < n) (d : Int) :
    L.flatten.getD (k * n + q) d = (L.getD k []).getD q d := by
  induction L generalizing k with
  | nil => simp
  | cons b L ih =>
    have hb : b.length = n := h b (List.mem_cons_self _ _)
    have hL : ∀ x ∈ L, x.length = n := fun x hx => h x (List.mem_cons_of_mem _ hx)
    cases k with
    | zero =>
      simp only [List.flatten_cons, Nat.zero_mul, Nat.zero_add, List.getD_cons_zero]
      simp only [List.getD_eq_getElem?_getD]
      rw [List.getElem?_append_left (by omega)]
    | succ k =>
      simp only [List.flatten_cons, List.getD_cons_succ]
      rw [← ih hL k]
      simp only [List.getD_eq_getElem?_getD]
      rw [List.getElem?_append_right (by rw [hb, Nat.succ_mul]; omega)]
      congr 2
      rw [hb, Nat.succ_mul]
      omega

theorem getD_tail (l : List (List Int)) (k : Nat) : l.tail.getD k [] = l.getD (k + 1) [] := by
  cases l <;> simp

theorem list_ext_getD (l₁ l₂ : List Int) (hl : l₁.length = l₂.length)
    (h : ∀ p, p < l₁.length → l₁.getD p 0 = l₂.getD p 0) : l₁ = l₂ := by
  apply List.ext_getElem hl
  intro p h1 h2
  have := h p h1
  simpa [List.getD_eq_getElem?_getD, List.getElem?_eq_getElem h1,
    List.getElem?_eq_getElem h2] using this

theorem getD_mem (l : List Int) (p : Nat) (hp : p < l.length) : l.getD p 0 ∈ l := by
  simp only [List.getD_eq_getElem?_getD, List.getElem?_eq_getElem hp, Option.getD_some]
  exact List.getElem_mem hp

/-! ## A denoiser that hands its input back -/

theorem blockStep_echo {σ F : Type} (ops : FloatOps F) (lib : Denoiser σ F) (channels : Nat)
    (hfit : (channels : Int) * FRAME_SIZE ≤ INT_MAX)
    (hpos : 0 < channels) (sts : Nat → σ) (blk : List Int)
    (hlen : blk.length = channels * FRAME_SIZE)
    (hecho : ∀ s x, (lib.rnnoise_process_frame s x).2.1 = x)
    (hconv : ∀ v ∈ blk, ops.toShort (ops.ofShort v) = v) :
    (blockStep ops lib channels sts blk).tmp = blk := by
  have hspec := blockStep_spec ops lib channels hfit sts blk hlen
  apply list_ext_getD _ _ (hspec.1.trans hlen.symm)
  intro p hp
  rw [hspec.1] at hp
  obtain ⟨h1, h2, h3⟩ := chan_index_split channels p hpos hp
  have := (hspec.2.1 (p % channels) h2).2 ⟨p / channels, h1⟩
  simp only [h3, hecho, channelFrame] at this
  rw [this]
  exact hconv _ (getD_mem blk p (by omega))

theorem procBlocks_echo {σ F : Type} (ops : FloatOps F) (lib : Denoiser σ F) (channels : Nat)
    (hfit : (channels : Int) * FRAME_SIZE ≤ INT_MAX)
    (hpos : 0 < channels) (hecho : ∀ s x, (lib.rnnoise_process_frame s x).2.1 = x)
    (N : Nat) (sts : Nat → σ) (stream : List Int)
    (hlen : N * (channels * FRAME_SIZE) ≤ stream.length)
    (hconv : ∀ v ∈ stream, ops.toShort (ops.ofShort v) = v) :
    (procBlocks ops lib channels N sts stream).flatten
        = stream.take (N * (channels * FRAME_SIZE)) ∧
      (procBlocks ops lib channels N sts stream).tail.flatten
        = (stream.take (N * (channels * FRAME_SIZE))).drop (channels * FRAME_SIZE) := by
  induction N generalizing sts stream with
  | zero => simp [procBlocks]
  | succ N ih =>
    rw [Nat.succ_mul] at hlen
    have hblk : (stream.take (channels * FRAME_SIZE)).length = channels * FRAME_SIZE := by
      simp only [List.length_take]; omega
    have hb := blockStep_echo ops lib channels hfit hpos sts _ hblk hecho
      (fun v hv => hconv v (List.mem_of_mem_take hv))
    have hrest := (ih (blockStep ops lib channels sts
        (stream.take (channels * FRAME_SIZE))).sts (stream.drop (channels * FRAME_SIZE))
      (by rw [List.length_drop]; omega)
      (fun v hv => hconv v (List.mem_of_mem_drop hv))).1
    have hdrop : (stream.take ((N + 1) * (channels * FRAME_SIZE))).drop (channels * FRAME_SIZE)
        = (stream.drop (channels * FRAME_SIZE)).take (N * (channels * FRAME_SIZE)) := by
      rw [List.drop_take, Nat.succ_mul]
      congr 1
      omega
    constructor
    · simp only [procBlocks, List.flatten_cons, hb, hrest]
      rw [← hdrop]
      conv_rhs => rw [← List.take_append_drop (channels * FRAME_SIZE)
        (stream.take ((N + 1) * (channels * FRAME_SIZE)))]
      congr 1
      rw [List.take_take, Nat.succ_mul]
      congr 1
      omega
    · simp only [procBlocks, List.tail_cons, hrest, hdrop]

theorem channelState_congr {σ F : Type} (ops : FloatOps F) (lib : Denoiser σ F)
    (channels c : Nat) (s : σ) (s₁ s₂ : List Int) (k : Nat)
    (h : ∀ j, j < k → channelFrame ops channels c (inputBlock channels s₁ j)
      = channelFrame ops channels c (inputBlock channels s₂ j)) :
    channelState ops lib channels c s s₁ k = channelState ops lib channels c s s₂ k := by
  induction k with
  | zero => rfl
  | succ k ih =>
    simp only [channelState]
    rw [ih (fun j hj => h j (by omega)), h k (by omega)]

end rnnoise_demo

namespace rnnoise_demo

/-! ## The block loop of `rnnoise_demo.c`: what is written -/

/-- The number of blocks written, for the channel counts whose block size
`channels * FRAME_SIZE` fits an `int`: the block loop, entered with `first = 1` and nothing
written, on an input of exactly `N` full blocks of `channels * FRAME_SIZE` samples followed
by `t < channels * FRAME_SIZE` more samples, writes `N - 1` blocks when `N >= 2` and none
when `N` is `0` or `1`; every block written has `channels * FRAME_SIZE` samples. -/
theorem demo_written_block_count {σ F : Type} (ops : FloatOps F) (lib : Denoiser σ F)
    (channels : Nat) (hfit : (channels : Int) * FRAME_SIZE ≤ INT_MAX)
    (hitems : 0 < blockItems channels) (stream : List Int) (st : LoopState σ F)
    (N t : Nat) (hlen : stream.length = N * (channels * FRAME_SIZE) + t)
    (ht : t < channels * FRAME_SIZE) (htmp : st.tmp.length = channels * FRAME_SIZE)
    (hfirst : st.first = true) (hout : st.stdout = []) :
    (2 ≤ N → (blockLoop ops lib channels hitems stream st).stdout.length = N - 1) ∧
      (N ≤ 1 → (blockLoop ops lib channels hitems stream st).stdout.length = 0) ∧
      ∀ b ∈ (blockLoop ops lib channels hitems stream st).stdout,
        b.length = channels * FRAME_SIZE := by
  have h := (blockLoop_eq ops lib channels hfit hitems N stream st t hlen ht htmp).1
  rw [hfirst, hout] at h
  simp only [if_true, List.nil_append] at h
  have hl : (blockLoop ops lib channels hitems stream st).stdout.length = N - 1 := by
    rw [h, List.length_tail, procBlocks_length]
  refine ⟨fun _ => hl, fun h1 => by omega, ?_⟩
  intro b hb
  rw [h] at hb
  exact procBlocks_block_length ops lib channels N hfit st.sts stream (by omega) b
    (List.mem_of_mem_tail hb)

/-- The block count on an example: two channels of `echoLib`, 2000 zero samples (two full blocks and 80
more). -/
theorem demo_written_block_count_witness :
    ((2 : Nat) : Int) * FRAME_SIZE ≤ INT_MAX ∧
      (List.replicate 2000 (0 : Int)).length = 2 * (2 * FRAME_SIZE) + 80 ∧
      80 < 2 * FRAME_SIZE ∧ (echoEntry 2).tmp.length = 2 * FRAME_SIZE ∧
      (echoEntry 2).first = true ∧ (echoEntry 2).stdout = [] ∧
      ((2 ≤ 2 → (blockLoop ratOps echoLib 2 (by decide) (List.replicate 2000 0)
          (echoEntry 2)).stdout.length = 2 - 1) ∧
        (2 ≤ 1 → (blockLoop ratOps echoLib 2 (by decide) (List.replicate 2000 0)
          (echoEntry 2)).stdout.length = 0) ∧
        ∀ b ∈ (blockLoop ratOps echoLib 2 (by decide) (List.replicate 2000 0)
          (echoEntry 2)).stdout, b.length = 2 * FRAME_SIZE) :=
  ⟨by decide, (List.length_replicate 2000 0).trans (by decide), by decide,
    (List.length_replicate _ 0).trans rfl, rfl, rfl,
    demo_written_block_count ratOps echoLib 2 (by decide) (by decide) (List.replicate 2000 0)
      (echoEntry 2) 2 80 ((List.length_replicate 2000 0).trans (by decide)) (by decide)
      ((List.length_replicate _ 0).trans rfl) rfl rfl⟩

/-- The samples written, for the channel counts whose block size `channels * FRAME_SIZE`
fits an `int`: on an input of `N` full blocks (and `t` more samples) the output holds
`(N-1) * FRAME_SIZE` samples for each of the `channels` channels, and for every output
block `k < N-1`, channel `c < channels` and `i < FRAME_SIZE`, output sample
`k*channels*FRAME_SIZE + i*channels + c` is the conversion to `short` of element `i` of the
frame that `rnnoise_process_frame` returns for the state of channel `c`, which has
processed channel `c` of input blocks `0..k` in order, on channel `c` of input block `k+1`
(the samples at the positions `i*channels + c` of that block, `channelFrame`). -/
theorem demo_output_sample {σ F : Type} (ops : FloatOps F) (lib : Denoiser σ F)
    (channels : Nat) (hfit : (channels : Int) * FRAME_SIZE ≤ INT_MAX)
    (hitems : 0 < blockItems channels) (stream : List Int) (st : LoopState σ F)
    (N t : Nat) (hlen : stream.length = N * (channels * FRAME_SIZE) + t)
    (ht : t < channels * FRAME_SIZE) (htmp : st.tmp.length = channels * FRAME_SIZE)
    (hfirst : st.first = true) (hout : st.stdout = []) :
    (blockLoop ops lib channels hitems stream st).stdout.flatten.length
        = (N - 1) * FRAME_SIZE * channels ∧
      ∀ (k c : Nat) (i : Fin FRAME_SIZE), k < N - 1 → c < channels →
        (blockLoop ops lib channels hitems stream st).stdout.flatten.getD
            (k * (channels * FRAME_SIZE) + (i.val * channels + c)) 0
          = ops.toShort ((lib.rnnoise_process_frame
              (channelState ops lib channels c (st.sts c) stream (k + 1))
              (channelFrame ops channels c (inputBlock channels stream (k + 1)))).2.1 i) := by
  have h := (blockLoop_eq ops lib channels hfit hitems N stream st t hlen ht htmp).1
  rw [hfirst, hout] at h
  simp only [if_true, List.nil_append] at h
  have hbl : ∀ b ∈ (procBlocks ops lib channels N st.sts stream).tail,
      b.length = channels * FRAME_SIZE := fun b hb =>
    procBlocks_block_length ops lib channels N hfit st.sts stream (by omega) b
      (List.mem_of_mem_tail hb)
  rw [h]
  constructor
  · rw [flatten_length_uniform _ _ hbl, List.length_tail, procBlocks_length]
    ring
  · intro k c i hk hc
    rw [flatten_getD_uniform _ _ hbl k _ (chan_index_lt channels i.val c i.isLt hc), getD_tail,
      procBlocks_getD ops lib channels N hfit st.sts stream (by omega) (k + 1) (by omega) c hc i]

/-- The samples written on an example: two channels of `echoLib`, 2000 zero samples. -/
theorem demo_output_sample_witness :
    ((2 : Nat) : Int) * FRAME_SIZE ≤ INT_MAX ∧
      (List.replicate 2000 (0 : Int)).length = 2 * (2 * FRAME_SIZE) + 80 ∧
      80 < 2 * FRAME_SIZE ∧ (echoEntry 2).tmp.length = 2 * FRAME_SIZE ∧
      (echoEntry 2).first = true ∧ (echoEntry 2).stdout = [] ∧
      ((blockLoop ratOps echoLib 2 (by decide) (List.replicate 2000 0)
          (echoEntry 2)).stdout.flatten.length = (2 - 1) * FRAME_SIZE * 2 ∧
        ∀ (k c : Nat) (i : Fin FRAME_SIZE), k < 2 - 1 → c < 2 →
          (blockLoop ratOps echoLib 2 (by decide) (List.replicate 2000 0)
              (echoEntry 2)).stdout.flatten.getD (k * (2 * FRAME_SIZE) + (i.val * 2 + c)) 0
            = ratOps.toShort ((echoLib.rnnoise_process_frame
                (channelState ratOps echoLib 2 c ((echoEntry 2).sts c)
                  (List.replicate 2000 0) (k + 1))
                (channelFrame ratOps 2 c
                  (inputBlock 2 (List.replicate 2000 0) (k + 1)))).2.1 i)) :=
  ⟨by decide, (List.length_replicate 2000 0).trans (by decide), by decide,
    (List.length_replicate _ 0).trans rfl, rfl, rfl,
    demo_output_sample ratOps echoLib 2 (by decide) (by decide) (List.replicate 2000 0)
      (echoEntry 2) 2 80 ((List.length_replicate 2000 0).trans (by decide)) (by decide)
      ((List.length_replicate _ 0).trans rfl) rfl rfl⟩

end rnnoise_demo

namespace rnnoise_demo

/-- A process function that returns its input frame, for the channel counts whose block
size `channels * FRAME_SIZE` fits an `int`: when the conversion `short -> float -> short`
gives back every 16-bit value, the channel loop leaves a block of 16-bit samples as it
found it; so for every input of `N` full blocks and `t` more samples, the output stream is
the input's blocks `1..N-1`, sample for sample: block `0` and the partial tail are
removed. -/
theorem demo_echo_passthrough {σ F : Type} (ops : FloatOps F) (lib : Denoiser σ F)
    (channels : Nat) (hpos : 0 < channels) (hfit : (channels : Int) * FRAME_SIZE ≤ INT_MAX)
    (hitems : 0 < blockItems channels) (stream : List Int) (st : LoopState σ F)
    (N t : Nat) (hlen : stream.length = N * (channels * FRAME_SIZE) + t)
    (ht : t < channels * FRAME_SIZE) (htmp : st.tmp.length = channels * FRAME_SIZE)
    (hfirst : st.first = true) (hout : st.stdout = [])
    (hecho : ∀ s x, (lib.rnnoise_process_frame s x).2.1 = x)
    (hconv : ∀ v : Int, -32768 ≤ v → v ≤ 32767 → ops.toShort (ops.ofShort v) = v)
    (hrange : ∀ v ∈ stream, -32768 ≤ v ∧ v ≤ 32767) :
    (∀ b : LoopState σ F, b.tmp.length = channels * FRAME_SIZE →
        (∀ v ∈ b.tmp, -32768 ≤ v ∧ v ≤ 32767) →
        (processBlock ops lib channels b).tmp = b.tmp) ∧
      (blockLoop ops lib channels hitems stream st).stdout.flatten
        = (stream.take (N * (channels * FRAME_SIZE))).drop (channels * FRAME_SIZE) := by
  constructor
  · intro b hb hv
    rw [processBlock_eq]
    exact blockStep_echo ops lib channels hfit hpos b.sts b.tmp hb hecho
      (fun v hvm => hconv v (hv v hvm).1 (hv v hvm).2)
  · have h := (blockLoop_eq ops lib channels hfit hitems N stream st t hlen ht htmp).1
    rw [hfirst, hout] at h
    simp only [if_true, List.nil_append] at h
    rw [h]
    exact (procBlocks_echo ops lib channels hfit hpos hecho N st.sts stream (by omega)
      (fun v hvm => hconv v (hrange v hvm).1 (hrange v hvm).2)).2

/-- The pass-through on an example: two channels of `echoLib` over the rational stand-in for floats,
2000 zero samples. -/
theorem demo_echo_passthrough_witness :
    ((2 : Nat) : Int) * FRAME_SIZE ≤ INT_MAX ∧
      (List.replicate 2000 (0 : Int)).length = 2 * (2 * FRAME_SIZE) + 80 ∧
      80 < 2 * FRAME_SIZE ∧ (echoEntry 2).tmp.length = 2 * FRAME_SIZE ∧
      (echoEntry 2).first = true ∧ (echoEntry 2).stdout = [] ∧
      (∀ s x, (echoLib.rnnoise_process_frame s x).2.1 = x) ∧
      (∀ v : Int, -32768 ≤ v → v ≤ 32767 → ratOps.toShort (ratOps.ofShort v) = v) ∧
      (∀ v ∈ List.replicate 2000 (0 : Int), -32768 ≤ v ∧ v ≤ 32767) ∧
      ((∀ b : LoopState (Option Nat) ℚ, b.tmp.length = 2 * FRAME_SIZE →
          (∀ v ∈ b.tmp, -32768 ≤ v ∧ v ≤ 32767) →
          (processBlock ratOps echoLib 2 b).tmp = b.tmp) ∧
        (blockLoop ratOps echoLib 2 (by decide) (List.replicate 2000 0)
            (echoEntry 2)).stdout.flatten
          = ((List.replicate 2000 (0 : Int)).take (2 * (2 * FRAME_SIZE))).drop
              (2 * FRAME_SIZE)) :=
  ⟨by decide, (List.length_replicate 2000 0).trans (by decide), by decide,
    (List.length_replicate _ 0).trans rfl, rfl, rfl, fun _ _ => rfl,
    fun v _ _ => by simp [ratOps],
    fun v hv => by rw [List.eq_of_mem_replicate hv]; decide,
    demo_echo_passthrough ratOps echoLib 2 (by decide) (by decide) (by decide)
      (List.replicate 2000 0)
      (echoEntry 2) 2 80 ((List.length_replicate 2000 0).trans (by decide)) (by decide)
      ((List.length_replicate _ 0).trans rfl) rfl rfl (fun _ _ => rfl)
      (fun v _ _ => by simp [ratOps])
      (fun v hv => by rw [List.eq_of_mem_replicate hv]; decide)⟩

/-- No cross-talk, for the channel counts whose block size `channels * FRAME_SIZE` fits an
`int`: in one pass of the block loop, processing channel `c` reads the block only at the
positions `i*channels + c` (the frame handed to `rnnoise_process_frame` is determined by
them), writes only there and calls only state `c`: the samples of every other channel and
every other state are left as they were. So
for two runs whose inputs agree on channel `c` in every block and whose states of channel
`c` start equal, the output samples of channel `c` are equal, whatever the other channels
hold, `rnnoise_process_frame` being a function of its state and input frame. -/
theorem demo_no_cross_talk {σ F : Type} (ops : FloatOps F) (lib : Denoiser σ F)
    (channels : Nat) (hfit : (channels : Int) * FRAME_SIZE ≤ INT_MAX)
    (hitems : 0 < blockItems channels) (c : Nat) (hc : c < channels)
    (s₁ s₂ : List Int) (st₁ st₂ : LoopState σ F) (N t : Nat)
    (hlen₁ : s₁.length = N * (channels * FRAME_SIZE) + t)
    (hlen₂ : s₂.length = N * (channels * FRAME_SIZE) + t)
    (ht : t < channels * FRAME_SIZE)
    (hagree : ∀ (k : Nat) (i : Fin FRAME_SIZE),
      (inputBlock channels s₁ k).getD (i.val * channels + c) 0
        = (inputBlock channels s₂ k).getD (i.val * channels + c) 0)
    (hsts : st₁.sts c = st₂.sts c)
    (htmp₁ : st₁.tmp.length = channels * FRAME_SIZE)
    (htmp₂ : st₂.tmp.length = channels * FRAME_SIZE)
    (hfirst₁ : st₁.first = true) (hfirst₂ : st₂.first = true)
    (hout₁ : st₁.stdout = []) (hout₂ : st₂.stdout = []) :
    (∀ b b₂ : LoopState σ F,
        (∀ i : Fin FRAME_SIZE, b.tmp.getD (i.val * channels + c) 0
          = b₂.tmp.getD (i.val * channels + c) 0) →
        extractChannel ops channels c b.tmp = extractChannel ops channels c b₂.tmp) ∧
      (∀ b : LoopState σ F,
        (∀ p, p % channels ≠ c →
          (processChannel ops lib channels b c).tmp.getD p 0 = b.tmp.getD p 0) ∧
        (∀ j, j ≠ c → (processChannel ops lib channels b c).sts j = b.sts j) ∧
        (processChannel ops lib channels b c).calls
          = b.calls ++ [Call.process_frame c
              (lib.rnnoise_process_frame (b.sts c)
                (extractChannel ops channels c b.tmp)).2.2]) ∧
      (blockLoop ops lib channels hitems s₁ st₁).stdout.length
        = (blockLoop ops lib channels hitems s₂ st₂).stdout.length ∧
      ∀ (k : Nat) (i : Fin FRAME_SIZE),
        ((blockLoop ops lib channels hitems s₁ st₁).stdout.getD k []).getD
            (i.val * channels + c) 0
          = ((blockLoop ops lib channels hitems s₂ st₂).stdout.getD k []).getD
              (i.val * channels + c) 0 := by
  have hx : ∀ k, channelFrame ops channels c (inputBlock channels s₁ k)
      = channelFrame ops channels c (inputBlock channels s₂ k) := by
    intro k
    funext i
    simp only [channelFrame]
    rw [hagree k i]
  have h1 := (blockLoop_eq ops lib channels hfit hitems N s₁ st₁ t hlen₁ ht htmp₁).1
  have h2 := (blockLoop_eq ops lib channels hfit hitems N s₂ st₂ t hlen₂ ht htmp₂).1
  rw [hfirst₁, hout₁] at h1
  rw [hfirst₂, hout₂] at h2
  simp only [if_true, List.nil_append] at h1 h2
  refine ⟨?_, ?_, ?_, ?_⟩
  · intro b b₂ hb
    rw [extractChannel_of_fit ops channels c b.tmp hfit hc,
      extractChannel_of_fit ops channels c b₂.tmp hfit hc]
    funext i
    simp only [channelFrame]
    rw [hb i]
  · intro b
    refine ⟨?_, ?_, processChannel_calls ops lib channels b c⟩
    · intro p hp
      rw [processChannel_tmp]
      apply storeChannel_getD_other ops channels c _ _ hfit hc
      intro i hi
      apply hp
      rw [← hi]
      exact chan_index_mod channels i.val c hc
    · intro j hj
      rw [processChannel_sts, Function.update_noteq hj]
  · rw [h1, h2, List.length_tail, List.length_tail, procBlocks_length, procBlocks_length]
  · intro k i
    rw [h1, h2, getD_tail, getD_tail]
    by_cases hk : k + 1 < N
    · rw [procBlocks_getD ops lib channels N hfit st₁.sts s₁ (by omega) (k + 1) hk c hc i,
        procBlocks_getD ops lib channels N hfit st₂.sts s₂ (by omega) (k + 1) hk c hc i,
        hsts, hx (k + 1), channelState_congr ops lib channels c (st₂.sts c) s₁ s₂ (k + 1)
          (fun j _ => hx j)]
    · have e1 : (procBlocks ops lib channels N st₁.sts s₁).getD (k + 1) [] = [] := by
        simp only [List.getD_eq_getElem?_getD]
        rw [List.getElem?_eq_none (by rw [procBlocks_length]; omega)]
        rfl
      have e2 : (procBlocks ops lib channels N st₂.sts s₂).getD (k + 1) [] = [] := by
        simp only [List.getD_eq_getElem?_getD]
        rw [List.getElem?_eq_none (by rw [procBlocks_length]; omega)]
        rfl
      rw [e1, e2]

end rnnoise_demo

namespace rnnoise_libsndfile

/-! ## The recording loop of `rnnoise_libsndfile.cpp` -/

theorem processReturns_append {F : Type} (a b : List (Call F)) :
    processReturns (a ++ b) = processReturns a ++ processReturns b := by
  induction a with
  | nil => rfl
  | cons c a ih => cases c <;> simp [processReturns, ih]

theorem vadWrites_append {F : Type} (a b : List (Call F)) :
    vadWrites (a ++ b) = vadWrites a ++ vadWrites b := by
  induction a with
  | nil => rfl
  | cons c a ih => cases c <;> simp [vadWrites, ih]

theorem processReturns_pairs {F : Type} (ps : List F) :
    processReturns (ps.flatMap (fun v => [Call.process_frame 0 v, Call.vad_write v])) = ps := by
  induction ps with
  | nil => rfl
  | cons v ps ih =>
    rw [List.flatMap_cons]
    show processReturns (Call.process_frame 0 v :: Call.vad_write v :: _) = _
    simp only [processReturns]
    exact congrArg (v :: ·) ih

theorem vadWrites_pairs {F : Type} (ps : List F) :
    vadWrites (ps.flatMap (fun v => [Call.process_frame 0 v, Call.vad_write v])) = ps := by
  induction ps with
  | nil => rfl
  | cons v ps ih =>
    rw [List.flatMap_cons]
    show vadWrites (Call.process_frame 0 v :: Call.vad_write v :: _) = _
    simp only [vadWrites]
    exact congrArg (v :: ·) ih

theorem recordingLoop_nil {σ F : Type} (ops : FloatOps F) (lib : Denoiser σ F)
    (st : RecState σ F) :
    recordingLoop ops lib [] st
      = { st with samples_buffer := (sfRead ops AUDIO_BUFFER_LENGTH []).2.1 } := by
  rw [recordingLoop]
  simp [sfRead]

theorem recordingLoop_step {σ F : Type} (ops : FloatOps F) (lib : Denoiser σ F)
    (items : List F) (st : RecState σ F) (h : items ≠ []) :
    recordingLoop ops lib items st
      = recordingLoop ops lib (items.drop AUDIO_BUFFER_LENGTH)
          (loopBody ops lib (sfRead ops AUDIO_BUFFER_LENGTH items).2.1 st) := by
  conv_lhs => rw [recordingLoop]
  have hpos : 0 < AUDIO_BUFFER_LENGTH := by decide
  have hne : ¬ (AUDIO_BUFFER_LENGTH = 0 ∨ items = []) := by
    intro hh; rcases hh with hh | hh
    · omega
    · exact h hh
  simp [sfRead, hne]

theorem recordingLoop_spec {σ F : Type} (ops : FloatOps F) (lib : Denoiser σ F) (M : Nat) :
    ∀ (items : List F) (st : RecState σ F),
      (items.length + (AUDIO_BUFFER_LENGTH - 1)) / AUDIO_BUFFER_LENGTH = M →
      ∃ (ps : List F) (outs : List (List F)),
        ps.length = M ∧ outs.length = M ∧ (∀ b ∈ outs, b.length = AUDIO_BUFFER_LENGTH) ∧
        (recordingLoop ops lib items st).calls
          = st.calls ++ ps.flatMap (fun v => [Call.process_frame 0 v, Call.vad_write v]) ∧
        (recordingLoop ops lib items st).output = st.output ++ outs := by
  induction M with
  | zero =>
    intro items st hM
    have h0 : items = [] := by
      apply List.eq_nil_of_length_eq_zero
      simp only [AUDIO_BUFFER_LENGTH] at hM
      omega
    subst h0
    exact ⟨[], [], rfl, rfl, by simp, by simp [recordingLoop_nil], by simp [recordingLoop_nil]⟩
  | succ M ih =>
    intro items st hM
    have hne : items ≠ [] := by
      intro h0
      subst h0
      simp [AUDIO_BUFFER_LENGTH] at hM
    have hrest : ((items.drop AUDIO_BUFFER_LENGTH).length + (AUDIO_BUFFER_LENGTH - 1))
        / AUDIO_BUFFER_LENGTH = M := by
      have hpos : 0 < items.length := List.length_pos.mpr hne
      rw [List.length_drop]
      simp only [AUDIO_BUFFER_LENGTH] at hM ⊢
      omega
    obtain ⟨ps, outs, h1, h2, h3, h4, h5⟩ :=
      ih (items.drop AUDIO_BUFFER_LENGTH)
        (loopBody ops lib (sfRead ops AUDIO_BUFFER_LENGTH items).2.1 st) hrest
    rw [recordingLoop_step ops lib items st hne]
    refine ⟨(lib.rnnoise_process_frame st.st (normalize_to_rnnoise_expected_level ops
        (sfRead ops AUDIO_BUFFER_LENGTH items).2.1)).2.2 :: ps,
      List.ofFn (denormalize_from_rnnoise_expected_level ops
        (lib.rnnoise_process_frame st.st (normalize_to_rnnoise_expected_level ops
          (sfRead ops AUDIO_BUFFER_LENGTH items).2.1)).2.1) :: outs, ?_, ?_, ?_, ?_, ?_⟩
    · simp only [List.length_cons, h1]
    · simp only [List.length_cons, h2]
    · intro b hb
      rcases List.mem_cons.mp hb with hb | hb
      · rw [hb]; exact List.length_ofFn _
      · exact h3 b hb
    · rw [h4]
      simp only [loopBody, dump_vad_prob, List.flatMap_cons, List.append_assoc,
        List.cons_append, List.nil_append]
    · rw [h5]
      simp only [loopBody, List.append_assoc, List.cons_append, List.nil_append]

end rnnoise_libsndfile

namespace rnnoise_libsndfile

theorem process_audio_recording_ok {σ F : Type} (ops : FloatOps F) (lib : Denoiser σ F)
    (items : List F) (st : RecState σ F) :
    process_audio_recording ops lib ⟨SAMPLERATE, items⟩ st
      = some (recordingLoop ops lib items st) := by
  unfold process_audio_recording
  exact if_neg (fun h => h rfl)

theorem sndfile_main_run {σ F : Type} (ops : FloatOps F) (lib : Denoiser σ F) (items : List F) :
    main ops lib false ⟨SAMPLERATE, items⟩
      = ⟨Outcome.exit 0,
          (recordingLoop ops lib items (initialize_rnnoise_library ops lib)).output,
          (recordingLoop ops lib items (initialize_rnnoise_library ops lib)).calls⟩ := by
  unfold main
  simp only [Bool.false_eq_true, if_false, process_audio_recording_ok]

theorem sndfile_main_outcome {σ F : Type} (ops : FloatOps F) (lib : Denoiser σ F)
    (items : List F) : (main ops lib false ⟨SAMPLERATE, items⟩).outcome = Outcome.exit 0 := by
  rw [sndfile_main_run]

theorem sndfile_main_output {σ F : Type} (ops : FloatOps F) (lib : Denoiser σ F)
    (items : List F) :
    (main ops lib false ⟨SAMPLERATE, items⟩).output
      = (recordingLoop ops lib items (initialize_rnnoise_library ops lib)).output := by
  rw [sndfile_main_run]

theorem sndfile_main_calls {σ F : Type} (ops : FloatOps F) (lib : Denoiser σ F)
    (items : List F) :
    (main ops lib false ⟨SAMPLERATE, items⟩).calls
      = (recordingLoop ops lib items (initialize_rnnoise_library ops lib)).calls := by
  rw [sndfile_main_run]

theorem initialize_calls {σ F : Type} (ops : FloatOps F) (lib : Denoiser σ F) :
    (initialize_rnnoise_library ops lib).calls
      = [Call.create 0, Call.set_xcorr_kernel_cb 0] := by
  rw [initialize_rnnoise_library]

theorem initialize_output {σ F : Type} (ops : FloatOps F) (lib : Denoiser σ F) :
    (initialize_rnnoise_library ops lib).output = [] := by
  rw [initialize_rnnoise_library]

/-- Counterexample to C5 as stated: an input of no full block and a partial block of one
sample makes `process_audio_recording` call `rnnoise_process_frame` once, write one VAD
record and write one output block. -/
theorem sndfile_partial_block_processed :
    (processReturns (main ratOps echoLib false ⟨SAMPLERATE, [0]⟩).calls).length = 1 ∧
      ¬ (processReturns (main ratOps echoLib false ⟨SAMPLERATE, [0]⟩).calls).length = 0 ∧
      (vadWrites (main ratOps echoLib false ⟨SAMPLERATE, [0]⟩).calls).length = 1 ∧
      (main ratOps echoLib false ⟨SAMPLERATE, [0]⟩).output.length = 1 := by
  obtain ⟨ps, outs, h1, h2, _, h4, h5⟩ := recordingLoop_spec ratOps echoLib 1
    [0] (initialize_rnnoise_library ratOps echoLib) (by decide)
  rw [sndfile_main_output, sndfile_main_calls, h4, h5, vadWrites_append, vadWrites_pairs,
    processReturns_append, processReturns_pairs, initialize_calls, initialize_output,
    List.nil_append, List.length_append, List.length_append, h1, h2]
  exact ⟨rfl, by decide, rfl, rfl⟩

end rnnoise_libsndfile

namespace rnnoise_demo

/-! ## The function `main` of `rnnoise_demo.c` -/

theorem createStates_spec {σ F : Type} (lib : Denoiser σ F) (st : LoopState σ F) (m : Nat) :
    (createStates lib m st).tmp = st.tmp ∧ (createStates lib m st).first = st.first ∧
      (createStates lib m st).stdout = st.stdout ∧
      (createStates lib m st).calls
        = st.calls ++ (List.range m).flatMap (fun i => [Call.create i, Call.set_param i]) ∧
      ∀ i, (createStates lib m st).sts i
        = if i < m then lib.rnnoise_set_param (lib.rnnoise_create i) else st.sts i := by
  induction m with
  | zero => simp [createStates]
  | succ m ih =>
    obtain ⟨h1, h2, h3, h4, h5⟩ := ih
    unfold createStates at h1 h2 h3 h4 h5 ⊢
    rw [List.range_succ, List.foldl_append, List.foldl_cons, List.foldl_nil]
    refine ⟨h1, h2, h3, ?_, ?_⟩
    · simp only [h4, List.flatMap_append, List.flatMap_cons, List.flatMap_nil,
        List.append_assoc, List.append_nil]
    · intro i
      by_cases him : i = m
      · subst him
        simp
      · simp only [Function.update_noteq him, h5 i]
        by_cases hlt : i < m
        · simp [hlt, Nat.lt_succ_of_lt hlt]
        · have : ¬ i < m + 1 := by omega
          simp [hlt, this]

/-! ## Index arithmetic in `int` -/

theorem tmp_access_in_bounds (a : Int)
    (hov : clampChannels a * FRAME_SIZE ≤ INT_MAX) (i ci : Int) (hi0 : 0 ≤ i)
    (hi : i < FRAME_SIZE) (hc0 : 0 ≤ ci) (hc : ci < clampChannels a) :
    tmpShorts (clampChannels a) = (clampChannels a).toNat * FRAME_SIZE ∧
      tmpIndex (clampChannels a) i ci = i * clampChannels a + ci ∧
      0 ≤ tmpIndex (clampChannels a) i ci ∧
      (tmpIndex (clampChannels a) i ci).toNat < tmpShorts (clampChannels a) := by
  have hC1 : 1 ≤ clampChannels a := by unfold clampChannels; split <;> omega
  generalize clampChannels a = C at *
  simp only [FRAME_SIZE, INT_MAX, Nat.cast_ofNat] at hov hi
  have hm1 : i * C ≤ 479 * C := Int.mul_le_mul_of_nonneg_right (by omega) (by omega)
  have hm0 : 0 ≤ i * C := Int.mul_nonneg hi0 (by omega)
  have hw1 : wrapInt (C * 480) = C * 480 := by
    simp only [wrapInt]; omega
  have hw2 : wrapInt (i * C) = i * C := by
    simp only [wrapInt]; omega
  have hw3 : wrapInt (i * C + ci) = i * C + ci := by
    simp only [wrapInt]; omega
  have hs : tmpShorts C = C.toNat * FRAME_SIZE := by
    simp only [tmpShorts, toSizeT, FRAME_SIZE, Nat.cast_ofNat, hw1]
    omega
  refine ⟨hs, ?_, ?_, ?_⟩
  · simp only [tmpIndex, hw2, hw3]
  · simp only [tmpIndex, hw2, hw3]; omega
  · rw [hs]
    simp only [tmpIndex, hw2, hw3, FRAME_SIZE]
    omega

theorem clampChannels_toNat_fit (a : Int) (C : Nat) (hC : (clampChannels a).toNat = C)
    (hov : clampChannels a * FRAME_SIZE ≤ INT_MAX) :
    (C : Int) * FRAME_SIZE ≤ INT_MAX := by
  have hC1 : 1 ≤ clampChannels a := by unfold clampChannels; split <;> omega
  have e : (C : Int) = clampChannels a := by omega
  rw [e]
  exact hov

theorem blockItems_pos (channels : Nat) (hpos : 0 < channels)
    (hfit : (channels : Int) * FRAME_SIZE ≤ INT_MAX) : 0 < blockItems channels := by
  rw [blockItems_of_fit channels hfit]
  exact Nat.mul_pos hpos (by decide)

theorem demo_main_run {σ F : Type} (ops : FloatOps F) (lib : Denoiser σ F) (env : Env) (C : Nat)
    (hC : (clampChannels env.channelsArg).toNat = C) (hitems : 0 < blockItems C)
    (hargc : 3 ≤ env.argc)
    (hmodel : env.argc < 4 ∨ env.modelFile = ModelFile.loaded) (hsts : env.mallocSts = true)
    (hov : clampChannels env.channelsArg * FRAME_SIZE ≤ INT_MAX)
    (htmp : env.mallocTmp = true) :
    main ops lib env
      = ⟨Outcome.exit 0,
          (blockLoop ops lib C hitems env.stdin (createStates lib C
            ⟨List.replicate (C * FRAME_SIZE) 0, fun _ => lib.null, true, [], []⟩)).stdout,
          (blockLoop ops lib C hitems env.stdin (createStates lib C
            ⟨List.replicate (C * FRAME_SIZE) 0, fun _ => lib.null, true, [], []⟩)).calls
            ++ teardown C (decide (4 ≤ env.argc))⟩ := by
  subst hC
  have h1 : ¬ env.argc < 3 := by omega
  have h2 : ¬ (4 ≤ env.argc ∧ env.modelFile ≠ ModelFile.loaded) := by
    intro ⟨ha, hb⟩
    rcases hmodel with hm | hm
    · omega
    · exact hb hm
  have h3 : ¬ INT_MAX < clampChannels env.channelsArg * FRAME_SIZE := by omega
  have hC1 : 0 < clampChannels env.channelsArg := by unfold clampChannels; split <;> omega
  have hs := (tmp_access_in_bounds env.channelsArg hov 0 0 (le_refl _) (by decide)
    (le_refl _) hC1).1
  unfold main
  rw [if_neg h1, if_neg h2, if_neg (by simp [hsts]), dif_neg h3, if_neg (by simp [htmp]), hs]

theorem demo_main_overflow {σ F : Type} (ops : FloatOps F) (lib : Denoiser σ F) (env : Env)
    (hargc : 3 ≤ env.argc)
    (hmodel : env.argc < 4 ∨ env.modelFile = ModelFile.loaded) (hsts : env.mallocSts = true)
    (hov : INT_MAX < clampChannels env.channelsArg * FRAME_SIZE) :
    main ops lib env = ⟨Outcome.undefined, [], []⟩ := by
  have h1 : ¬ env.argc < 3 := by omega
  have h2 : ¬ (4 ≤ env.argc ∧ env.modelFile ≠ ModelFile.loaded) := by
    intro ⟨ha, hb⟩
    rcases hmodel with hm | hm
    · omega
    · exact hb hm
  unfold main
  rw [if_neg h1, if_neg h2, if_neg (by simp [hsts]), dif_pos hov]

theorem demo_main_trace {σ F : Type} (ops : FloatOps F) (lib : Denoiser σ F) (env : Env)
    (C N t : Nat) (hC : (clampChannels env.channelsArg).toNat = C) (hpos : 0 < C)
    (hargc : 3 ≤ env.argc)
    (hmodel : env.argc < 4 ∨ env.modelFile = ModelFile.loaded) (hsts : env.mallocSts = true)
    (hov : clampChannels env.channelsArg * FRAME_SIZE ≤ INT_MAX)
    (htmp : env.mallocTmp = true)
    (hlen : env.stdin.length = N * (C * FRAME_SIZE) + t) (ht : t < C * FRAME_SIZE) :
    (main ops lib env).outcome = Outcome.exit 0 ∧
      (main ops lib env).stdout
        = (procBlocks ops lib C N (createStates lib C
            ⟨List.replicate (C * FRAME_SIZE) 0, fun _ => lib.null, true, [], []⟩).sts
            env.stdin).tail ∧
      (main ops lib env).calls
        = (List.range C).flatMap (fun i => [Call.create i, Call.set_param i])
          ++ procCalls ops lib C N (createStates lib C
            ⟨List.replicate (C * FRAME_SIZE) 0, fun _ => lib.null, true, [], []⟩).sts
            env.stdin
          ++ teardown C (decide (4 ≤ env.argc)) := by
  have hfit := clampChannels_toNat_fit env.channelsArg C hC hov
  have hitems := blockItems_pos C hpos hfit
  rw [demo_main_run ops lib env C hC hitems hargc hmodel hsts hov htmp]
  obtain ⟨c1, c2, c3, c4, _⟩ := createStates_spec lib
    (⟨List.replicate (C * FRAME_SIZE) 0, fun _ => lib.null, true, [], []⟩ : LoopState σ F) C
  obtain ⟨b1, b2, _⟩ := blockLoop_eq ops lib C hfit hitems N env.stdin (createStates lib C
    ⟨List.replicate (C * FRAME_SIZE) 0, fun _ => lib.null, true, [], []⟩) t hlen ht
    (by rw [c1]; exact List.length_replicate _ _)
  refine ⟨rfl, ?_, ?_⟩
  · simp only [b1, c2, c3, if_true, List.nil_append]
  · simp only [b2, c4, List.nil_append]

theorem countP_isProcess_pairs {F : Type} (c m : Nat) :
    ((List.range m).flatMap (fun i => [(Call.create i : Call F), Call.set_param i])).countP
      (Call.isProcess c) = 0 := by
  rw [List.countP_eq_zero]
  intro a ha
  simp only [List.mem_flatMap, List.mem_range] at ha
  obtain ⟨i, _, hi⟩ := ha
  simp only [List.mem_cons, List.mem_singleton, List.not_mem_nil, or_false] at hi
  rcases hi with hi | hi <;> simp [hi, Call.isProcess]

theorem countP_isProcess_teardown {F : Type} (c m : Nat) (model : Bool) :
    (teardown m model : List (Call F)).countP (Call.isProcess c) = 0 := by
  rw [List.countP_eq_zero]
  intro a ha
  simp only [teardown, List.mem_append, List.mem_map, List.mem_range] at ha
  rcases ha with ⟨i, _, hi⟩ | ha
  · simp [← hi, Call.isProcess]
  · cases model <;> simp at ha
    simp [ha, Call.isProcess]

end rnnoise_demo

namespace rnnoise_demo

theorem procCalls_all_process {σ F : Type} (ops : FloatOps F) (lib : Denoiser σ F)
    (channels N : Nat) (hfit : (channels : Int) * FRAME_SIZE ≤ INT_MAX) (sts : Nat → σ)
    (stream : List Int) (hlen : N * (channels * FRAME_SIZE) ≤ stream.length) :
    ∀ a ∈ procCalls ops lib channels N sts stream,
      ∃ c v, c < channels ∧ a = Call.process_frame c v := by
  induction N generalizing sts stream with
  | zero => intro a ha; simp [procCalls] at ha
  | succ N ih =>
    intro a ha
    rw [Nat.succ_mul] at hlen
    have hblk : (stream.take (channels * FRAME_SIZE)).length = channels * FRAME_SIZE := by
      simp only [List.length_take]; omega
    have hspec := blockStep_spec ops lib channels hfit sts _ hblk
    rw [procCalls, List.mem_append] at ha
    rcases ha with ha | ha
    · rw [hspec.2.2.2] at ha
      simp only [List.mem_map, List.mem_range] at ha
      obtain ⟨c, hc, rfl⟩ := ha
      exact ⟨c, _, hc, rfl⟩
    · exact ih _ _ (by rw [List.length_drop]; omega) a ha

/-- C6, evaluated where it fails: one channel, `rnnoise_create` returns the null state,
two blocks on `stdin`. `main` calls `rnnoise_set_param` on the state it has just failed
to create, goes on to read the input, calls `rnnoise_process_frame` on that state for
both blocks, writes one block and returns 0. -/
theorem demo_create_failure_unchecked :
    failingLib.rnnoise_create 0 = failingLib.null ∧
      (main ratOps failingLib
        ⟨3, 1, ModelFile.loaded, true, true, List.replicate 960 0⟩).outcome
        = Outcome.exit 0 ∧
      (main ratOps failingLib
        ⟨3, 1, ModelFile.loaded, true, true, List.replicate 960 0⟩).calls.take 2
        = [Call.create 0, Call.set_param 0] ∧
      (main ratOps failingLib
        ⟨3, 1, ModelFile.loaded, true, true, List.replicate 960 0⟩).calls.countP
          (Call.isProcess 0) = 2 ∧
      (main ratOps failingLib
        ⟨3, 1, ModelFile.loaded, true, true, List.replicate 960 0⟩).stdout.length = 1 := by
  obtain ⟨h1, h2, h3⟩ := demo_main_trace ratOps failingLib
    ⟨3, 1, ModelFile.loaded, true, true, List.replicate 960 0⟩ 1 2 0 (by decide) (by decide)
    (by decide) (Or.inl (by decide)) rfl (by decide) rfl
    ((List.length_replicate 960 0).trans (by decide)) (by decide)
  have e : (List.range 1).flatMap (fun i => [(Call.create i : Call ℚ), Call.set_param i])
      = [Call.create 0, Call.set_param 0] := rfl
  refine ⟨rfl, h1, ?_, ?_, ?_⟩
  · rw [h3, e]
    rfl
  · rw [h3, List.countP_append, List.countP_append, countP_isProcess_pairs,
      countP_isProcess_teardown,
      procCalls_count ratOps failingLib 1 2 (by decide) _ _
        (by rw [List.length_replicate]; decide) 0 (by decide)]
  · rw [h2, List.length_tail, procBlocks_length]

/-- C9, evaluated where it fails: for the channel argument 8947849 the clamp leaves the
value, the `int` product `channels * FRAME_SIZE` exceeds `INT_MAX` (the run is undefined
from line 75 on), and with the usual wrap-around the buffer `tmp` gets 224 samples while
the loop indexes it at `1*channels + 0 = 8947849`. -/
theorem demo_block_size_overflow :
    clampChannels 8947849 = 8947849 ∧
      INT_MAX < clampChannels 8947849 * FRAME_SIZE ∧
      tmpShorts (clampChannels 8947849) = 224 ∧
      tmpIndex (clampChannels 8947849) 1 0 = 8947849 ∧
      ¬ (tmpIndex (clampChannels 8947849) 1 0).toNat < tmpShorts (clampChannels 8947849) ∧
      (main ratOps echoLib ⟨3, 8947849, ModelFile.loaded, true, true, []⟩).outcome
        = Outcome.undefined := by
  refine ⟨by decide, by decide, by decide, by decide, by decide, ?_⟩
  rw [demo_main_overflow ratOps echoLib _ (by decide) (Or.inl (by decide)) rfl (by decide)]

/-- The block positions of channel 0 in the two-channel example. -/
theorem inputBlock_getD (channels : Nat) (stream : List Int) (k q : Nat)
    (hq : q < channels * FRAME_SIZE) :
    (inputBlock channels stream k).getD q 0
      = stream.getD (k * (channels * FRAME_SIZE) + q) 0 := by
  simp [inputBlock, List.getElem?_take, List.getElem?_drop, hq]

theorem replicate_zero_getD (m j : Nat) : (List.replicate m (0 : Int)).getD j 0 = 0 := by
  simp only [List.getD_eq_getElem?_getD, List.getElem?_replicate]
  split <;> rfl

theorem oddOnes_getD_even (j : Nat) (hj : j % 2 = 0) : oddOnes.getD j 0 = 0 := by
  by_cases h : j < 1920
  · simp only [oddOnes, List.getD_eq_getElem?_getD, List.getElem?_map,
      List.getElem?_range h, Option.map_some', Option.getD_some, hj]
    rfl
  · simp only [oddOnes, List.getD_eq_getElem?_getD]
    rw [List.getElem?_eq_none (by rw [List.length_map, List.length_range]; omega)]
    rfl

theorem oddOnes_agree (k : Nat) (i : Fin FRAME_SIZE) :
    (inputBlock 2 (List.replicate 1920 0) k).getD (i.val * 2 + 0) 0
      = (inputBlock 2 oddOnes k).getD (i.val * 2 + 0) 0 := by
  have hq : i.val * 2 + 0 < 2 * FRAME_SIZE := chan_index_lt 2 i.val 0 i.isLt (by decide)
  rw [inputBlock_getD 2 _ k _ hq, inputBlock_getD 2 _ k _ hq, replicate_zero_getD,
    oddOnes_getD_even]
  simp only [FRAME_SIZE]
  omega

/-- No cross-talk on an example: two channels of `echoLib`; the two inputs are two blocks
of zeros and two blocks with zeros on channel 0 and ones on channel 1. -/
theorem demo_no_cross_talk_witness :
    ((2 : Nat) : Int) * FRAME_SIZE ≤ INT_MAX ∧ 0 < 2 ∧
      (List.replicate 1920 (0 : Int)).length = 2 * (2 * FRAME_SIZE) + 0 ∧
      oddOnes.length = 2 * (2 * FRAME_SIZE) + 0 ∧ 0 < 2 * FRAME_SIZE ∧
      (∀ (k : Nat) (i : Fin FRAME_SIZE),
        (inputBlock 2 (List.replicate 1920 0) k).getD (i.val * 2 + 0) 0
          = (inputBlock 2 oddOnes k).getD (i.val * 2 + 0) 0) ∧
      (echoEntry 2).sts 0 = (echoEntry 2).sts 0 ∧
      (echoEntry 2).tmp.length = 2 * FRAME_SIZE ∧ (echoEntry 2).first = true ∧
      (echoEntry 2).stdout = [] ∧
      ((∀ b b₂ : LoopState (Option Nat) ℚ,
          (∀ i : Fin FRAME_SIZE, b.tmp.getD (i.val * 2 + 0) 0 = b₂.tmp.getD (i.val * 2 + 0) 0) →
          extractChannel ratOps 2 0 b.tmp = extractChannel ratOps 2 0 b₂.tmp) ∧
        (∀ b : LoopState (Option Nat) ℚ,
          (∀ p, p % 2 ≠ 0 →
            (processChannel ratOps echoLib 2 b 0).tmp.getD p 0 = b.tmp.getD p 0) ∧
          (∀ j, j ≠ 0 → (processChannel ratOps echoLib 2 b 0).sts j = b.sts j) ∧
          (processChannel ratOps echoLib 2 b 0).calls
            = b.calls ++ [Call.process_frame 0
                (echoLib.rnnoise_process_frame (b.sts 0)
                  (extractChannel ratOps 2 0 b.tmp)).2.2]) ∧
        (blockLoop ratOps echoLib 2 (by decide) (List.replicate 1920 0)
            (echoEntry 2)).stdout.length
          = (blockLoop ratOps echoLib 2 (by decide) oddOnes (echoEntry 2)).stdout.length ∧
        ∀ (k : Nat) (i : Fin FRAME_SIZE),
          ((blockLoop ratOps echoLib 2 (by decide) (List.replicate 1920 0)
              (echoEntry 2)).stdout.getD k []).getD (i.val * 2 + 0) 0
            = ((blockLoop ratOps echoLib 2 (by decide) oddOnes
                (echoEntry 2)).stdout.getD k []).getD (i.val * 2 + 0) 0) :=
  ⟨by decide, by decide, (List.length_replicate 1920 0).trans (by decide),
    by simp [oddOnes, FRAME_SIZE], by decide, oddOnes_agree, rfl,
    (List.length_replicate _ 0).trans rfl, rfl, rfl,
    demo_no_cross_talk ratOps echoLib 2 (by decide) (by decide) 0 (by decide)
      (List.replicate 1920 0)
      oddOnes (echoEntry 2) (echoEntry 2) 2 0
      ((List.length_replicate 1920 0).trans (by decide)) (by simp [oddOnes, FRAME_SIZE])
      (by decide) oddOnes_agree rfl ((List.length_replicate _ 0).trans rfl)
      ((List.length_replicate _ 0).trans rfl) rfl rfl rfl rfl⟩

/-! ## The claims about the block loop, evaluated on a block size that overflows -/

theorem overflowEnv_stdin_length :
    overflowEnv.stdin.length = 2 * (8947849 * FRAME_SIZE) :=
  (List.length_replicate 8589935040 (0 : Int)).trans (by decide)

theorem overflowEnv_run :
    main ratOps echoLib overflowEnv = ⟨Outcome.undefined, [], []⟩ :=
  demo_main_overflow ratOps echoLib overflowEnv (by decide) (Or.inl (by decide)) rfl
    (by decide)

/-- C1, evaluated where it fails: `rnnoise_demo 8947849 10` fed two full blocks of
`8947849 * 480` samples, for which the claim has one block written. The `int` product
`channels * FRAME_SIZE` exceeds `INT_MAX`, so the run is undefined from line 75 on and
writes no block here; with the usual wrap-around the count that lines 86 and 95 hand to
`fread` and `fwrite` is 224 samples, not `channels * 480`. -/
theorem demo_block_count_overflow :
    clampChannels overflowEnv.channelsArg = 8947849 ∧
      overflowEnv.stdin.length = 2 * (8947849 * FRAME_SIZE) ∧
      INT_MAX < clampChannels overflowEnv.channelsArg * FRAME_SIZE ∧
      blockItems 8947849 = 224 ∧
      main ratOps echoLib overflowEnv = ⟨Outcome.undefined, [], []⟩ ∧
      (main ratOps echoLib overflowEnv).stdout.length ≠ 2 - 1 := by
  refine ⟨by decide, overflowEnv_stdin_length, by decide, by decide, overflowEnv_run, ?_⟩
  rw [overflowEnv_run]
  decide

/-- C2, evaluated where it fails: `rnnoise_demo 8947849 10` fed two full blocks, for which
the claim has `480` samples written for each of the 8947849 channels. The run is undefined
and writes no sample here; and with the usual wrap-around the frame that line 90 builds for
the last channel, 8947848, takes its element 479 from position 223 of the buffer, where
channel 8947848 of a block has it at position `479 * 8947849 + 8947848 = 4294967519`. -/
theorem demo_output_sample_overflow :
    overflowEnv.stdin.length = 2 * (8947849 * FRAME_SIZE) ∧
      (main ratOps echoLib overflowEnv).outcome = Outcome.undefined ∧
      (main ratOps echoLib overflowEnv).stdout.flatten.length
        ≠ (2 - 1) * FRAME_SIZE * 8947849 ∧
      tmpIndex 8947849 479 8947848 = 223 ∧
      (∀ tmp : List Int,
        extractChannel ratOps 8947849 8947848 tmp (Fin.last 479)
          = ratOps.ofShort (tmp.getD 223 0)) ∧
      (∀ blk : List Int,
        channelFrame ratOps 8947849 8947848 blk (Fin.last 479)
          = ratOps.ofShort (blk.getD 4294967519 0)) := by
  refine ⟨overflowEnv_stdin_length, ?_, ?_, by decide, ?_, ?_⟩
  · rw [overflowEnv_run]
  · rw [overflowEnv_run]
    decide
  · intro tmp
    have h : tmpIndex ((8947849 : Nat) : Int) ((Fin.last 479).val : Int)
        ((8947848 : Nat) : Int) = ((223 : Nat) : Int) := by decide
    unfold extractChannel
    rw [h, tmpRead_ofNat]
  · intro blk
    rfl

/-- C8, evaluated where it fails: with 8947849 channels the `int` product
`channels * FRAME_SIZE` exceeds `INT_MAX`, and with the usual wrap-around the index
`i*channels+ci` of lines 90 and 92 leaves the positions of channel `ci`. For sample 479 of
channel 8947625 it is 0, the position of sample 0 of channel 0: the step for channel
8947625 reads that sample of channel 0 into its frame (line 90) and overwrites it
(line 92). For sample 240 of channel 0 the index is negative. -/
theorem demo_cross_talk_overflow :
    INT_MAX < clampChannels 8947849 * FRAME_SIZE ∧
      tmpIndex 8947849 479 8947625 = 0 ∧ tmpIndex 8947849 0 0 = 0 ∧
      tmpIndex 8947849 240 0 = -2147483536 ∧
      (∀ tmp : List Int,
        extractChannel ratOps 8947849 8947625 tmp (Fin.last 479)
          = ratOps.ofShort (tmp.getD 0 0)) ∧
      (∀ (tmp : List Int) (v : Int),
        tmpWrite tmp (tmpIndex 8947849 479 8947625) v = tmp.set 0 v) := by
  have h : tmpIndex ((8947849 : Nat) : Int) ((Fin.last 479).val : Int)
      ((8947625 : Nat) : Int) = ((0 : Nat) : Int) := by decide
  have h0 : tmpIndex 8947849 479 8947625 = ((0 : Nat) : Int) := by decide
  refine ⟨by decide, by decide, by decide, by decide, ?_, ?_⟩
  · intro tmp
    unfold extractChannel
    rw [h, tmpRead_ofNat]
  · intro tmp v
    rw [h0, tmpWrite_ofNat]

/-- C10, evaluated where it fails: `rnnoise_demo 8947849 10` with a process function that
returns its input frame and a float type that gives every `short` back, fed two full
blocks of `8947849 * 480` samples, for which the claim has the second block written back
sample for sample. The run is undefined from line 75 on and its output here is not that
block. -/
theorem demo_echo_overflow :
    (∀ s x, (echoLib.rnnoise_process_frame s x).2.1 = x) ∧
      (∀ v : Int, ratOps.toShort (ratOps.ofShort v) = v) ∧
      overflowEnv.stdin.length = 2 * (8947849 * FRAME_SIZE) ∧
      (main ratOps echoLib overflowEnv).outcome = Outcome.undefined ∧
      (main ratOps echoLib overflowEnv).stdout.flatten
        ≠ (overflowEnv.stdin.take (2 * (8947849 * FRAME_SIZE))).drop
            (8947849 * FRAME_SIZE) := by
  refine ⟨fun _ _ => rfl, fun v => by simp [ratOps], overflowEnv_stdin_length, ?_, ?_⟩
  · rw [overflowEnv_run]
  · rw [overflowEnv_run]
    intro h
    have hl := congrArg List.length h
    rw [List.length_drop, List.length_take, overflowEnv_stdin_length] at hl
    exact absurd hl (by decide)

end rnnoise_demo

namespace rnnoise_libsndfile

theorem countP_isDestroy_pairs {F : Type} (ps : List F) :
    (ps.flatMap (fun v => [Call.process_frame 0 v, Call.vad_write v])).countP
      Call.isDestroy = 0 := by
  rw [List.countP_eq_zero]
  intro a ha
  simp only [List.mem_flatMap] at ha
  obtain ⟨v, _, hv⟩ := ha
  simp only [List.mem_cons, List.mem_singleton, List.not_mem_nil, or_false] at hv
  rcases hv with hv | hv <;> simp [hv, Call.isDestroy]

/-- C7, evaluated where it fails: every run of `rnnoise_libsndfile.cpp` that gets past the
sample-rate test ends normally with a trace that starts with the creation of the state
and its configuration, holds one `rnnoise_process_frame` per block, and contains no
`rnnoise_destroy` at all. -/
theorem sndfile_state_never_destroyed {σ F : Type} (ops : FloatOps F) (lib : Denoiser σ F)
    (items : List F) :
    (main ops lib false ⟨SAMPLERATE, items⟩).outcome = Outcome.exit 0 ∧
      (main ops lib false ⟨SAMPLERATE, items⟩).calls.take 2
        = [Call.create 0, Call.set_xcorr_kernel_cb 0] ∧
      (processReturns (main ops lib false ⟨SAMPLERATE, items⟩).calls).length
        = (items.length + (AUDIO_BUFFER_LENGTH - 1)) / AUDIO_BUFFER_LENGTH ∧
      (main ops lib false ⟨SAMPLERATE, items⟩).calls.countP Call.isDestroy = 0 := by
  obtain ⟨ps, outs, h1, _, _, h4, _⟩ := recordingLoop_spec ops lib _ items
    (initialize_rnnoise_library ops lib) rfl
  rw [sndfile_main_outcome, sndfile_main_calls, h4, initialize_calls]
  refine ⟨rfl, rfl, ?_, ?_⟩
  · rw [processReturns_append, processReturns_pairs, List.length_append, h1]
    exact Nat.zero_add _
  · rw [List.countP_append, countP_isDestroy_pairs]
    rfl

end rnnoise_libsndfile

namespace rnnoise_demo

/-- The life of the states in a run of `rnnoise_demo.c` that gets past the argument and
allocation tests: every state is created and configured, then come the
`rnnoise_process_frame` calls (`N` on each state), then every state is destroyed once, and
last the model is released when one was loaded. -/
theorem demo_state_lifecycle {σ F : Type} (ops : FloatOps F) (lib : Denoiser σ F)
    (env : Env) (C N t : Nat) (hC : (clampChannels env.channelsArg).toNat = C)
    (hpos : 0 < C) (hargc : 3 ≤ env.argc)
    (hmodel : env.argc < 4 ∨ env.modelFile = ModelFile.loaded) (hsts : env.mallocSts = true)
    (hov : clampChannels env.channelsArg * FRAME_SIZE ≤ INT_MAX)
    (htmp : env.mallocTmp = true)
    (hlen : env.stdin.length = N * (C * FRAME_SIZE) + t) (ht : t < C * FRAME_SIZE) :
    ∃ P : List (Call F),
      (main ops lib env).calls
        = (List.range C).flatMap (fun i => [Call.create i, Call.set_param i]) ++ P
          ++ ((List.range C).map Call.destroy
            ++ (if 4 ≤ env.argc then [Call.model_free] else [])) ∧
      (∀ a ∈ P, ∃ c v, c < C ∧ a = Call.process_frame c v) ∧
      ∀ c, c < C → P.countP (Call.isProcess c) = N := by
  obtain ⟨_, _, h3⟩ := demo_main_trace ops lib env C N t hC hpos hargc hmodel hsts hov htmp hlen ht
  have hle : N * (C * FRAME_SIZE) ≤ env.stdin.length := by omega
  have hfit := clampChannels_toNat_fit env.channelsArg C hC hov
  refine ⟨procCalls ops lib C N (createStates lib C
      ⟨List.replicate (C * FRAME_SIZE) 0, fun _ => lib.null, true, [], []⟩).sts env.stdin,
    ?_, procCalls_all_process ops lib C N hfit _ env.stdin hle,
    fun c hc => procCalls_count ops lib C N hfit _ env.stdin hle c hc⟩
  rw [h3]
  simp [teardown]

end rnnoise_demo

/-- C5, as the code has it: in `rnnoise_demo.c`, for every channel count whose block size
`channels * FRAME_SIZE` fits an `int` and every input of `N` full blocks followed by a
partial block (non-empty or not), the partial read triggers no
`rnnoise_process_frame` call and no output write: the blocks written and the calls made
are those for the input with the partial block removed, `N` process calls on each channel.
In `process_audio_recording` of `rnnoise_libsndfile.cpp`, a non-empty partial read is
processed as one more block: after `M` full blocks and a partial one there are `M+1`
process calls, `M+1` VAD records and `M+1` output writes, against `M` of each for the
input with the partial block removed. -/
theorem partial_block_handling {σ F : Type} (ops : FloatOps F) (lib : Denoiser σ F)
    (channels : Nat) (hpos : 0 < channels)
    (hfit : (channels : Int) * FRAME_SIZE ≤ INT_MAX)
    (hitems : 0 < rnnoise_demo.blockItems channels) (full part : List Int)
    (st : rnnoise_demo.LoopState σ F) (N : Nat)
    (hfull : full.length = N * (channels * FRAME_SIZE))
    (hshort : part.length < channels * FRAME_SIZE)
    (htmp : st.tmp.length = channels * FRAME_SIZE)
    (ifull ipart : List F) (rst : rnnoise_libsndfile.RecState σ F) (M : Nat)
    (hifull : ifull.length = M * rnnoise_libsndfile.AUDIO_BUFFER_LENGTH)
    (hipart : ipart ≠ [])
    (hishort : ipart.length < rnnoise_libsndfile.AUDIO_BUFFER_LENGTH) :
    ((rnnoise_demo.blockLoop ops lib channels hitems (full ++ part) st).stdout
        = (rnnoise_demo.blockLoop ops lib channels hitems full st).stdout ∧
      (rnnoise_demo.blockLoop ops lib channels hitems (full ++ part) st).calls
        = (rnnoise_demo.blockLoop ops lib channels hitems full st).calls ∧
      ∀ c, c < channels →
        (rnnoise_demo.blockLoop ops lib channels hitems (full ++ part) st).calls.countP
            (Call.isProcess c)
          = st.calls.countP (Call.isProcess c) + N) ∧
    (∃ (r r₀ : rnnoise_libsndfile.RecState σ F),
      rnnoise_libsndfile.process_audio_recording ops lib
        ⟨rnnoise_libsndfile.SAMPLERATE, ifull ++ ipart⟩ rst = some r ∧
      rnnoise_libsndfile.process_audio_recording ops lib
        ⟨rnnoise_libsndfile.SAMPLERATE, ifull⟩ rst = some r₀ ∧
      (processReturns r.calls).length = (processReturns rst.calls).length + (M + 1) ∧
      (vadWrites r.calls).length = (vadWrites rst.calls).length + (M + 1) ∧
      r.output.length = rst.output.length + (M + 1) ∧
      (processReturns r₀.calls).length = (processReturns rst.calls).length + M ∧
      (vadWrites r₀.calls).length = (vadWrites rst.calls).length + M ∧
      r₀.output.length = rst.output.length + M) := by
  constructor
  · have hn : 0 < channels * FRAME_SIZE := Nat.mul_pos hpos (by decide)
    obtain ⟨a1, a2, _⟩ := rnnoise_demo.blockLoop_eq ops lib channels hfit hitems N (full ++ part) st
      part.length (by rw [List.length_append, hfull]) hshort htmp
    obtain ⟨b1, b2, _⟩ := rnnoise_demo.blockLoop_eq ops lib channels hfit hitems N full st 0
      (by rw [hfull]; rfl) hn htmp
    have e1 : rnnoise_demo.procBlocks ops lib channels N st.sts (full ++ part)
        = rnnoise_demo.procBlocks ops lib channels N st.sts full := by
      rw [← rnnoise_demo.procBlocks_take ops lib channels N st.sts (full ++ part),
        List.take_left' hfull]
    have e2 : rnnoise_demo.procCalls ops lib channels N st.sts (full ++ part)
        = rnnoise_demo.procCalls ops lib channels N st.sts full := by
      rw [← rnnoise_demo.procCalls_take ops lib channels N st.sts (full ++ part),
        List.take_left' hfull]
    refine ⟨?_, ?_, ?_⟩
    · rw [a1, b1, e1]
    · rw [a2, b2, e2]
    · intro c hc
      rw [a2, List.countP_append, e2,
        rnnoise_demo.procCalls_count ops lib channels N hfit st.sts full (by omega) c hc]
  · have hpos1 : 0 < ipart.length := List.length_pos.mpr hipart
    obtain ⟨ps, outs, h1, h2, _, h4, h5⟩ := rnnoise_libsndfile.recordingLoop_spec ops lib
      (M + 1) (ifull ++ ipart) rst (by
        rw [List.length_append, hifull]
        simp only [rnnoise_libsndfile.AUDIO_BUFFER_LENGTH] at hishort ⊢
        omega)
    obtain ⟨ps₀, outs₀, g1, g2, _, g4, g5⟩ := rnnoise_libsndfile.recordingLoop_spec ops lib
      M ifull rst (by
        rw [hifull]
        simp only [rnnoise_libsndfile.AUDIO_BUFFER_LENGTH]
        omega)
    refine ⟨rnnoise_libsndfile.recordingLoop ops lib (ifull ++ ipart) rst,
      rnnoise_libsndfile.recordingLoop ops lib ifull rst,
      rnnoise_libsndfile.process_audio_recording_ok ops lib (ifull ++ ipart) rst,
      rnnoise_libsndfile.process_audio_recording_ok ops lib ifull rst, ?_, ?_, ?_, ?_, ?_, ?_⟩
    · rw [h4, rnnoise_libsndfile.processReturns_append,
        rnnoise_libsndfile.processReturns_pairs, List.length_append, h1]
    · rw [h4, rnnoise_libsndfile.vadWrites_append, rnnoise_libsndfile.vadWrites_pairs,
        List.length_append, h1]
    · rw [h5, List.length_append, h2]
    · rw [g4, rnnoise_libsndfile.processReturns_append,
        rnnoise_libsndfile.processReturns_pairs, List.length_append, g1]
    · rw [g4, rnnoise_libsndfile.vadWrites_append, rnnoise_libsndfile.vadWrites_pairs,
        List.length_append, g1]
    · rw [g5, List.length_append, g2]

/-- Witness for C5 as amended: two channels and two full blocks plus one sample for
`rnnoise_demo.c`; one full block plus one sample for `rnnoise_libsndfile.cpp`. -/
theorem partial_block_handling_witness :
    0 < 2 ∧ ((2 : Nat) : Int) * FRAME_SIZE ≤ INT_MAX ∧
      (List.replicate 1920 (0 : Int)).length = 2 * (2 * FRAME_SIZE) ∧
      ([0] : List Int).length < 2 * FRAME_SIZE ∧
      (echoEntry 2).tmp.length = 2 * FRAME_SIZE ∧
      (List.replicate 480 (0 : ℚ)).length = 1 * rnnoise_libsndfile.AUDIO_BUFFER_LENGTH ∧
      ([0] : List ℚ) ≠ [] ∧
      ([0] : List ℚ).length < rnnoise_libsndfile.AUDIO_BUFFER_LENGTH ∧
      (((rnnoise_demo.blockLoop ratOps echoLib 2 (by decide)
            (List.replicate 1920 0 ++ [0]) (echoEntry 2)).stdout
          = (rnnoise_demo.blockLoop ratOps echoLib 2 (by decide)
              (List.replicate 1920 0) (echoEntry 2)).stdout ∧
        (rnnoise_demo.blockLoop ratOps echoLib 2 (by decide)
            (List.replicate 1920 0 ++ [0]) (echoEntry 2)).calls
          = (rnnoise_demo.blockLoop ratOps echoLib 2 (by decide)
              (List.replicate 1920 0) (echoEntry 2)).calls ∧
        ∀ c, c < 2 →
          (rnnoise_demo.blockLoop ratOps echoLib 2 (by decide)
              (List.replicate 1920 0 ++ [0]) (echoEntry 2)).calls.countP (Call.isProcess c)
            = (echoEntry 2).calls.countP (Call.isProcess c) + 2) ∧
      (∃ (r r₀ : rnnoise_libsndfile.RecState (Option Nat) ℚ),
        rnnoise_libsndfile.process_audio_recording ratOps echoLib
          ⟨rnnoise_libsndfile.SAMPLERATE, List.replicate 480 0 ++ [0]⟩
          (rnnoise_libsndfile.initialize_rnnoise_library ratOps echoLib) = some r ∧
        rnnoise_libsndfile.process_audio_recording ratOps echoLib
          ⟨rnnoise_libsndfile.SAMPLERATE, List.replicate 480 0⟩
          (rnnoise_libsndfile.initialize_rnnoise_library ratOps echoLib) = some r₀ ∧
        (processReturns r.calls).length
          = (processReturns
              (rnnoise_libsndfile.initialize_rnnoise_library ratOps echoLib).calls).length
            + (1 + 1) ∧
        (vadWrites r.calls).length
          = (vadWrites
              (rnnoise_libsndfile.initialize_rnnoise_library ratOps echoLib).calls).length
            + (1 + 1) ∧
        r.output.length
          = (rnnoise_libsndfile.initialize_rnnoise_library ratOps echoLib).output.length
            + (1 + 1) ∧
        (processReturns r₀.calls).length
          = (processReturns
              (rnnoise_libsndfile.initialize_rnnoise_library ratOps echoLib).calls).length
            + 1 ∧
        (vadWrites r₀.calls).length
          = (vadWrites
              (rnnoise_libsndfile.initialize_rnnoise_library ratOps echoLib).calls).length
            + 1 ∧
        r₀.output.length
          = (rnnoise_libsndfile.initialize_rnnoise_library ratOps echoLib).output.length
            + 1)) :=
  ⟨by decide, by decide, (List.length_replicate 1920 0).trans (by decide), by decide,
    (List.length_replicate _ 0).trans rfl, (List.length_replicate 480 0).trans (by decide),
    by simp, by decide,
    partial_block_handling ratOps echoLib 2 (by decide) (by decide) (by decide)
      (List.replicate 1920 0) [0]
      (echoEntry 2) 2 ((List.length_replicate 1920 0).trans (by decide))
      (by decide) ((List.length_replicate _ 0).trans rfl) (List.replicate 480 0) [0]
      (rnnoise_libsndfile.initialize_rnnoise_library ratOps echoLib) 1
      ((List.length_replicate 480 0).trans (by decide)) (by simp) (by decide)⟩

end RNNoise
